import Mathlib

/-!
Verification of the tictacrs reinforcement-learning agent.

This file gives a shallow embedding of the core of the tictacrs repository
(src/game/board.rs, src/agents/players.rs, src/agents/trainer.rs,
src/annealing.rs) and proves the frozen claims about it.

Modelling conventions:
- Rust `f64` values are modelled as exact rationals where the claims are
  about the numeric behaviour, and as 64-bit IEEE-754 bit patterns
  (naturals below 2 to the 64) where the claims are about the persisted
  byte layout.
- Rust panics are modelled as `Option.none` results.
- The random generator is modelled as an explicit oracle: `make_move`
  receives the value sampled from `Standard` and the index the
  `SliceRandom.choose` call would pick; `choose` on a non-empty slice
  returns the element at the oracle index modulo the length.
- `HashMap` is modelled as an association list with lookup, insert and
  modify matching the map semantics of the Rust code.
-/

namespace Tictacrs

/-- The cell marker of src/game/board.rs (`enum Piece { Empty, X, O }`). -/
inductive Piece where
  | Empty : Piece
  | X : Piece
  | O : Piece
deriving DecidableEq, Repr

/-- The compact board state `[Piece; 9]` used as the value-table key. -/
abbrev GState := List Piece

/-- Array indexing `compact_state[i]`; all uses in the source are within
bounds, the default is never observed on length-9 states. -/
def cell (s : GState) (i : Nat) : Piece :=
  s.getD i Piece.Empty

/-- The value table `HashMap<[Piece; 9], f64>` as an association list. -/
abbrev Table := List (GState × ℚ)

/-- `HashMap.get`: the value stored for a key, if present. -/
def tableGet : Table → GState → Option ℚ
  | [], _ => none
  | (k, v) :: rest, key => if k = key then some v else tableGet rest key

/-- `HashMap.contains_key`. -/
def tableContains (t : Table) (k : GState) : Bool :=
  (tableGet t k).isSome

/-- `HashMap.insert`: replace the value when the key is present, add the
entry otherwise. -/
def tableInsert : Table → GState → ℚ → Table
  | [], key, v => [(key, v)]
  | (k, w) :: rest, key, v =>
      if k = key then (k, v) :: rest else (k, w) :: tableInsert rest key v

/-- `HashMap.entry(k).and_modify(f)`: apply `f` to the stored value when the
key is present, leave the map unchanged otherwise. -/
def tableModify : Table → GState → (ℚ → ℚ) → Table
  | [], _, _ => []
  | (k, w) :: rest, key, f =>
      if k = key then (k, f w) :: rest else (k, w) :: tableModify rest key f

/-- `Player::check_winner_row` (players.rs): first row whose three cells are
equal and non-empty, reported left to right. -/
def checkWinnerRow (s : GState) : Option Piece :=
  if cell s (3 * 0 + 0) = cell s (3 * 0 + 1) ∧ cell s (3 * 0 + 0) = cell s (3 * 0 + 2) ∧
      cell s (3 * 0 + 0) ≠ Piece.Empty then some (cell s (3 * 0 + 0))
  else if cell s (3 * 1 + 0) = cell s (3 * 1 + 1) ∧ cell s (3 * 1 + 0) = cell s (3 * 1 + 2) ∧
      cell s (3 * 1 + 0) ≠ Piece.Empty then some (cell s (3 * 1 + 0))
  else if cell s (3 * 2 + 0) = cell s (3 * 2 + 1) ∧ cell s (3 * 2 + 0) = cell s (3 * 2 + 2) ∧
      cell s (3 * 2 + 0) ≠ Piece.Empty then some (cell s (3 * 2 + 0))
  else none

/-- `Player::check_winner_col` (players.rs). -/
def checkWinnerCol (s : GState) : Option Piece :=
  if cell s (0 + 0) = cell s (0 + 3) ∧ cell s (0 + 0) = cell s (0 + 6) ∧
      cell s (0 + 0) ≠ Piece.Empty then some (cell s (0 + 0))
  else if cell s (1 + 0) = cell s (1 + 3) ∧ cell s (1 + 0) = cell s (1 + 6) ∧
      cell s (1 + 0) ≠ Piece.Empty then some (cell s (1 + 0))
  else if cell s (2 + 0) = cell s (2 + 3) ∧ cell s (2 + 0) = cell s (2 + 6) ∧
      cell s (2 + 0) ≠ Piece.Empty then some (cell s (2 + 0))
  else none

/-- `Player::check_winner_diag` (players.rs). NOTE: the second branch of the
source (the anti-diagonal, cells 6, 4, 2) literally returns
`compact_state[3 * 0 + 0]`, the top-left cell, not a cell of the winning
anti-diagonal; the model reproduces that. -/
def checkWinnerDiag (s : GState) : Option Piece :=
  if cell s (3 * 0 + 0) = cell s (3 * 1 + 1) ∧ cell s (3 * 0 + 0) = cell s (3 * 2 + 2) ∧
      cell s (3 * 0 + 0) ≠ Piece.Empty then some (cell s (3 * 0 + 0))
  else if cell s (3 * 2 + 0) = cell s (3 * 1 + 1) ∧ cell s (3 * 2 + 0) = cell s (3 * 0 + 2) ∧
      cell s (3 * 2 + 0) ≠ Piece.Empty then some (cell s (3 * 0 + 0))
  else none

/-- `Player::check_winner` (players.rs): rows first, then columns, then
diagonals. -/
def checkWinner (s : GState) : Option Piece :=
  match checkWinnerRow s with
  | some piece => some piece
  | none =>
      match checkWinnerCol s with
      | some piece => some piece
      | none => checkWinnerDiag s

/-- `Player::check_full` (players.rs): false as soon as a cell is empty. -/
def checkFull : GState → Bool
  | [] => true
  | p :: rest => if p = Piece.Empty then false else checkFull rest

/-- `Player::find_new_state_prob` (players.rs): the lazily inserted default
value of a state not yet in the table. -/
def findNewStateProb (piece : Piece) (s : GState) : ℚ :=
  match checkWinner s with
  | some p => if piece = p then 1 else 0
  | none => if checkFull s then 0 else 1 / 2

/-- `f64::powi` on an exact rational base. The source only ever calls it
with a non-negative exponent. -/
def ratPowi (x : ℚ) (n : Int) : ℚ :=
  if 0 ≤ n then x ^ n.toNat else (x ^ (-n).toNat)⁻¹

/-- `learning_rate_function` (annealing.rs): step decay with drop rate 0.9
and step size 20; the `(iteration / step_size) as i32` cast is lossless
because `iteration / 20 < 2^31` for every `u32` iteration. -/
def learning_rate_function (initial_rate : ℚ) (iteration : Nat) : ℚ :=
  initial_rate * ratPowi (9 / 10) (Int.ofNat (iteration / 20))

/-- `exploration_rate_function` (annealing.rs): step decay with drop rate
0.9 and step size 10. -/
def exploration_rate_function (initial_rate : ℚ) (iteration : Nat) : ℚ :=
  initial_rate * ratPowi (9 / 10) (Int.ofNat (iteration / 10))

/-- The board of src/game/board.rs: `squares: [[Piece; 3]; 3]`, modelled as
a total function on row and column indices (only indices below 3 are used). -/
structure BoardG where
  squares : Nat → Nat → Piece

/-- `Board::new` and `Board::clear_board`: the all-empty board. -/
def emptyBoard : BoardG :=
  { squares := fun _ _ => Piece.Empty }

/-- `Board::make_auto_player_move`: write `piece` at the given row and
column, no emptiness check. -/
def makeAutoPlayerMove (b : BoardG) (row col : Nat) (piece : Piece) : BoardG :=
  { squares := fun i j => if i = row ∧ j = col then piece else b.squares i j }

/-- `Board::get_compact_state`: the flattened board with
`compact_state[3 * row + col] = squares[row][col]`, row-major. -/
def getCompactState (b : BoardG) : GState :=
  [b.squares 0 0, b.squares 0 1, b.squares 0 2,
   b.squares 1 0, b.squares 1 1, b.squares 1 2,
   b.squares 2 0, b.squares 2 1, b.squares 2 2]

/-- `Board::is_full` (board.rs). -/
def boardIsFull (b : BoardG) : Bool :=
  decide (b.squares 0 0 ≠ Piece.Empty ∧ b.squares 0 1 ≠ Piece.Empty ∧
    b.squares 0 2 ≠ Piece.Empty ∧ b.squares 1 0 ≠ Piece.Empty ∧
    b.squares 1 1 ≠ Piece.Empty ∧ b.squares 1 2 ≠ Piece.Empty ∧
    b.squares 2 0 ≠ Piece.Empty ∧ b.squares 2 1 ≠ Piece.Empty ∧
    b.squares 2 2 ≠ Piece.Empty)

/-- `Board::check_winner` (board.rs): columns first, then rows, then
diagonals, over `squares` directly. -/
def boardCheckWinner (b : BoardG) : Option Piece :=
  if b.squares 0 0 = b.squares 1 0 ∧ b.squares 0 0 = b.squares 2 0 ∧
      b.squares 0 0 ≠ Piece.Empty then some (b.squares 0 0)
  else if b.squares 0 1 = b.squares 1 1 ∧ b.squares 0 1 = b.squares 2 1 ∧
      b.squares 0 1 ≠ Piece.Empty then some (b.squares 0 1)
  else if b.squares 0 2 = b.squares 1 2 ∧ b.squares 0 2 = b.squares 2 2 ∧
      b.squares 0 2 ≠ Piece.Empty then some (b.squares 0 2)
  else if b.squares 0 0 = b.squares 0 1 ∧ b.squares 0 0 = b.squares 0 2 ∧
      b.squares 0 0 ≠ Piece.Empty then some (b.squares 0 0)
  else if b.squares 1 0 = b.squares 1 1 ∧ b.squares 1 0 = b.squares 1 2 ∧
      b.squares 1 0 ≠ Piece.Empty then some (b.squares 1 0)
  else if b.squares 2 0 = b.squares 2 1 ∧ b.squares 2 0 = b.squares 2 2 ∧
      b.squares 2 0 ≠ Piece.Empty then some (b.squares 2 0)
  else if b.squares 0 0 = b.squares 1 1 ∧ b.squares 0 0 = b.squares 2 2 ∧
      b.squares 0 0 ≠ Piece.Empty then some (b.squares 0 0)
  else if b.squares 2 0 = b.squares 1 1 ∧ b.squares 2 0 = b.squares 0 2 ∧
      b.squares 2 0 ≠ Piece.Empty then some (b.squares 2 0)
  else none

/-- `Player::get_move_probability` (players.rs): place `piece` in the empty
cell `move[0] * 3 + move[1]`, look up the resulting state in the table
inserting the `find_new_state_prob` default when absent, and return the
stored value together with the grown table. The source then restores the
cell, so the board argument is unchanged; the panic on a non-empty target
cell is modelled as `none`. -/
def getMoveProbability (piece : Piece) (t : Table) (s : GState)
    (mv : Nat × Nat) : Option (ℚ × Table) :=
  let idx := mv.1 * 3 + mv.2
  if cell s idx ≠ Piece.Empty then none
  else
    let s1 := s.set idx piece
    let t1 := if tableContains t s1 then t else tableInsert t s1 (findNewStateProb piece s1)
    match tableGet t1 s1 with
    | some v => some (v, t1)
    | none => none

/-- The recursion of `Player::get_potential_moves` (players.rs): iterate the
cells of `compact_state` with a counter, and for each empty cell push the
move `[counter / 3, counter % 3]` and its probability. `s` is the full
state, `suffix` the cells still to visit. -/
def potentialMovesAux (piece : Piece) (s : GState) :
    List Piece → Nat → Table → Option (List (Nat × Nat) × List ℚ × Table)
  | [], _, t => some ([], [], t)
  | sq :: rest, counter, t =>
      if sq = Piece.Empty then
        match getMoveProbability piece t s (counter / 3, counter % 3) with
        | none => none
        | some (prob, t1) =>
            match potentialMovesAux piece s rest (counter + 1) t1 with
            | none => none
            | some (ms, ps, t2) =>
                some ((counter / 3, counter % 3) :: ms, prob :: ps, t2)
      else potentialMovesAux piece s rest (counter + 1) t

/-- `Player::get_potential_moves` (players.rs). -/
def getPotentialMoves (piece : Piece) (t : Table) (s : GState) :
    Option (List (Nat × Nat) × List ℚ × Table) :=
  potentialMovesAux piece s s 0 t

/-- The selection loop of `Player::make_optimal_move` (players.rs): fold the
indexed pairs of moves and probabilities, clearing the collected best moves
on a strictly larger probability and appending on an equal one. The source
indexes both vectors by the same index range, which is exactly a traversal
of their zip since they have equal length. -/
def bestFold : List ((Nat × Nat) × ℚ) → ℚ → List (Nat × Nat) → ℚ × List (Nat × Nat)
  | [], maxP, best => (maxP, best)
  | (m, p) :: rest, maxP, best =>
      if p > maxP then bestFold rest p [m]
      else if p = maxP then bestFold rest maxP (best ++ [m])
      else bestFold rest maxP best

/-- `Player::make_optimal_move` (players.rs): collect the best moves, insert
the default value for the current state when absent, apply the TD update
`*prob += lrate * (max_probability - old_prob)` to the current state, then
return the single best move, or the oracle choice among the tied best
moves; the `panic!` on an empty best-move list is `none`. -/
def makeOptimalMove (piece : Piece) (lrate : ℚ) (t : Table) (s : GState)
    (choiceIdx : Nat) : Option ((Nat × Nat) × Table) :=
  match getPotentialMoves piece t s with
  | none => none
  | some (moves, probs, t1) =>
      let mp := bestFold (moves.zip probs) 0 []
      let maxProbability := mp.1
      let bestMoves := mp.2
      let t2 := if tableContains t1 s then t1 else tableInsert t1 s (findNewStateProb piece s)
      match tableGet t2 s with
      | none => none
      | some oldProb =>
          let t3 := tableModify t2 s (fun prob => prob + lrate * (maxProbability - oldProb))
          if bestMoves.length = 1 then some (bestMoves.getD 0 (0, 0), t3)
          else if bestMoves.length > 1 then
            some (bestMoves.getD (choiceIdx % bestMoves.length) (0, 0), t3)
          else none

/-- The maximum loop of `Player::make_random_move` (players.rs): running
maximum of the probabilities starting from `0f64`. -/
def maxFold (l : List ℚ) (acc : ℚ) : ℚ :=
  l.foldl (fun a p => if p > a then p else a) acc

/-- `Player::make_random_move` (players.rs): compute the running maximum of
the candidate probabilities, collect the moves whose probability is
strictly below it, and return the oracle choice among those, falling back
to all candidate moves when none is strictly below; `choose(..).unwrap()`
on an empty move list is `none`. No entry for the current state is written. -/
def makeRandomMove (piece : Piece) (t : Table) (s : GState)
    (choiceIdx : Nat) : Option ((Nat × Nat) × Table) :=
  match getPotentialMoves piece t s with
  | none => none
  | some (moves, probs, t1) =>
      let maxProbability := maxFold probs 0
      let explorationMoves := (moves.zip probs).filterMap
        (fun mp => if mp.2 < maxProbability then some mp.1 else none)
      if explorationMoves.length = 0 then
        if moves.length = 0 then none
        else some (moves.getD (choiceIdx % moves.length) (0, 0), t1)
      else some (explorationMoves.getD (choiceIdx % explorationMoves.length) (0, 0), t1)

/-- The `Player` struct of players.rs with its `SaveState` flattened in and
the random generator replaced by explicit oracles at the call sites; the
two annealing function pointers are ordinary function fields. Values are
exact rationals. -/
structure PlayerM where
  piece : Piece
  stateSpace : Table
  initialLearningRate : ℚ
  initialExplorationRate : ℚ
  iteration : Nat
  learningFn : ℚ → Nat → ℚ
  explorationFn : ℚ → Nat → ℚ

/-- `Player::make_move` (players.rs): draw `randVal` from the generator,
anneal the exploration rate, and dispatch to the exploratory or the
optimal path. -/
def makeMove (p : PlayerM) (boardState : GState) (randVal : ℚ)
    (choiceIdx : Nat) : Option ((Nat × Nat) × PlayerM) :=
  let expRate := p.explorationFn p.initialExplorationRate p.iteration
  if randVal < expRate then
    match makeRandomMove p.piece p.stateSpace boardState choiceIdx with
    | none => none
    | some (mv, t) => some (mv, { p with stateSpace := t })
  else
    let lrate := p.learningFn p.initialLearningRate p.iteration
    match makeOptimalMove p.piece lrate p.stateSpace boardState choiceIdx with
    | none => none
    | some (mv, t) => some (mv, { p with stateSpace := t })

/-- `Player::update_iteration` (players.rs). -/
def updateIteration (p : PlayerM) (newIter : Nat) : PlayerM :=
  { p with iteration := newIter }

/-- Modelled from the spec: `Player::show_loosing_state` is called from
`Trainer::train` and from `single_player` but its definition is not among
the provided source files. Spec section 4.3: it forces `evaluate` plus a TD
update on `prior_state` toward the value of the actual terminal state
reached, with the current annealed learning rate. `evaluate` is the
lookup-with-insert of section 4.1, realized in the source by the
`contains_key` plus `insert(find_new_state_prob)` pattern. -/
def showLoosingState (p : PlayerM) (priorState terminalState : GState) : PlayerM :=
  let lrate := p.learningFn p.initialLearningRate p.iteration
  let t1 := if tableContains p.stateSpace priorState then p.stateSpace
            else tableInsert p.stateSpace priorState (findNewStateProb p.piece priorState)
  let t2 := if tableContains t1 terminalState then t1
            else tableInsert t1 terminalState (findNewStateProb p.piece terminalState)
  let vTerminal := (tableGet t2 terminalState).getD 0
  { p with stateSpace := tableModify t2 priorState (fun v => v + lrate * (vTerminal - v)) }

/-- `TrainerError` (trainer.rs). -/
inductive TrainerError where
  | FailedToSave : TrainerError
  | InvalidPlayers : TrainerError
deriving DecidableEq, Repr

/-- Draw the next oracle pair: the value sampled from `Standard` and the
`choose` index of one `make_move` call. -/
def nextOracle : List (ℚ × Nat) → (ℚ × Nat) × List (ℚ × Nat)
  | [] => ((0, 0), [])
  | o :: rest => (o, rest)

/-- The inner `loop` of `Trainer::train` (trainer.rs), with explicit fuel;
each real game ends within five passes, so fuel 9 is never exhausted in a
real episode. Player 1 moves; on a win player 2 is shown its prior board;
otherwise, when the board is not full, player 2 moves symmetrically; the
prior boards are re-recorded after each non-terminal move. -/
def episodeLoop : Nat → PlayerM → PlayerM → BoardG → GState → GState →
    List (ℚ × Nat) → Option (PlayerM × PlayerM × BoardG × List (ℚ × Nat))
  | 0, _, _, _, _, _, _ => none
  | fuel + 1, p1, p2, board, _prevBoard1, prevBoard2, oracle =>
      let o1 := nextOracle oracle
      match makeMove p1 (getCompactState board) o1.1.1 o1.1.2 with
      | none => none
      | some (mv1, p1a) =>
          let board1 := makeAutoPlayerMove board mv1.1 mv1.2 p1a.piece
          if (boardCheckWinner board1).isSome then
            some (p1a, showLoosingState p2 prevBoard2 (getCompactState board1), board1, o1.2)
          else if boardIsFull board1 then
            some (p1a, p2, board1, o1.2)
          else
            let prevBoard1a := getCompactState board1
            let o2 := nextOracle o1.2
            match makeMove p2 (getCompactState board1) o2.1.1 o2.1.2 with
            | none => none
            | some (mv2, p2a) =>
                let board2 := makeAutoPlayerMove board1 mv2.1 mv2.2 p2a.piece
                if (boardCheckWinner board2).isSome then
                  some (showLoosingState p1a prevBoard1a (getCompactState board2), p2a, board2, o2.2)
                else if boardIsFull board2 then
                  some (p1a, p2a, board2, o2.2)
                else
                  episodeLoop fuel p1a p2a board2 prevBoard1a (getCompactState board2) o2.2

/-- The episode loop `for it in 0..iterations` of `Trainer::train`: clear
the board, set both player iterations to the episode index, reset the two
prior boards to all-empty, and run one episode. -/
def trainEpisodes : Nat → Nat → PlayerM → PlayerM → List (ℚ × Nat) →
    Option (PlayerM × PlayerM × List (ℚ × Nat))
  | 0, _, p1, p2, oracle => some (p1, p2, oracle)
  | n + 1, it, p1, p2, oracle =>
      let p1a := updateIteration p1 it
      let p2a := updateIteration p2 it
      match episodeLoop 9 p1a p2a emptyBoard (List.replicate 9 Piece.Empty)
          (List.replicate 9 Piece.Empty) oracle with
      | none => none
      | some (p1b, p2b, _, rest) => trainEpisodes n (it + 1) p1b p2b rest

/-- `Trainer::train` (trainer.rs): reject two players of the same piece
before any episode runs, then play the episodes, then write the two save
files into the output directory (the file writes themselves are modelled
as always succeeding, since model values are exact rationals and the
filesystem is outside the model). The result carries the final player
states together with the outcome; on the `InvalidPlayers` error the
players are returned exactly as passed in. -/
def train (p1 p2 : PlayerM) (iterations : Nat) (outDirectory : String)
    (oracle : List (ℚ × Nat)) :
    Option (Except TrainerError (String × String) × PlayerM × PlayerM) :=
  if p1.piece = p2.piece then some (Except.error TrainerError.InvalidPlayers, p1, p2)
  else
    match trainEpisodes iterations 0 p1 p2 oracle with
    | none => none
    | some (p1a, p2a, _) =>
        let playerXFilePath := outDirectory ++ "player_x_save.ttr"
        let playerOFilePath := outDirectory ++ "player_o_save.ttr"
        some (Except.ok (playerXFilePath, playerOFilePath), p1a, p2a)

/-- The table value of a state with the lazily inserted default standing in
when the state is absent: what the lookup-with-insert of the source
(`contains_key` check followed by `insert(find_new_state_prob)`) returns. -/
def probOf (piece : Piece) (t : Table) (k : GState) : ℚ :=
  (tableGet t k).getD (findNewStateProb piece k)

/-- A reachable board on which O completed the anti-diagonal (cells 6, 4,
2) while X, who has no completed line, occupies the top-left cell. -/
def c1Board : GState :=
  [Piece.X, Piece.X, Piece.O,
   Piece.Empty, Piece.O, Piece.Empty,
   Piece.O, Piece.Empty, Piece.Empty]

/-- A reachable board on which O, the owning side, completed the
anti-diagonal while X occupies the top-right... the top-left cell of the
main diagonal is empty; used as the C3 failing input. -/
def c3Board : GState :=
  [Piece.Empty, Piece.X, Piece.O,
   Piece.X, Piece.O, Piece.Empty,
   Piece.O, Piece.Empty, Piece.Empty]

/-- A fresh X player with the repository default hyperparameters. -/
def c7PlayerA : PlayerM :=
  { piece := Piece.X, stateSpace := [], initialLearningRate := 3 / 4,
    initialExplorationRate := 1 / 5, iteration := 0,
    learningFn := learning_rate_function, explorationFn := exploration_rate_function }

/-- A second fresh player assigned the same piece X. -/
def c7PlayerB : PlayerM :=
  { piece := Piece.X, stateSpace := [], initialLearningRate := 3 / 4,
    initialExplorationRate := 1 / 5, iteration := 0,
    learningFn := learning_rate_function, explorationFn := exploration_rate_function }

/-- The fresh X player of the C6 forced episode: never explores, learning
rate 0, so its own updates stay at concrete values. -/
def c6PlayerX : PlayerM :=
  { piece := Piece.X, stateSpace := [], initialLearningRate := 0,
    initialExplorationRate := 0, iteration := 0,
    learningFn := fun r _ => r, explorationFn := fun r _ => r }

/-- The fresh O player of the C6 forced episode, with a symbolic initial
learning rate and the identity annealing schedule, so that the annealed
learning rate of the episode is exactly `lr`. -/
def c6PlayerO (lr : ℚ) : PlayerM :=
  { piece := Piece.O, stateSpace := [], initialLearningRate := lr,
    initialExplorationRate := 0, iteration := 0,
    learningFn := fun r _ => r, explorationFn := fun r _ => r }

/-- Oracle forcing the episode a1, a2, b1, a3, c1: every random draw is
1/2 (at or above the zero exploration rate, hence greedy), and the tie
choice indices pick X at cells 0, 3 and O at cells 1, 2, after which X
completes column 0 and wins. -/
def c6Oracle : List (ℚ × Nat) :=
  [(1 / 2, 0), (1 / 2, 0), (1 / 2, 1), (1 / 2, 0), (1 / 2, 0)]

/-- The board recorded as O's prior state immediately after O's second
move of the forced episode: X at cells 0 and 3, O at cells 1 and 2. -/
def c6Prior : GState :=
  [Piece.X, Piece.O, Piece.O,
   Piece.X, Piece.Empty, Piece.Empty,
   Piece.Empty, Piece.Empty, Piece.Empty]


/-- The successive board states of the C6 forced episode. -/
def c6SE : GState :=
  [Piece.Empty, Piece.Empty, Piece.Empty, Piece.Empty, Piece.Empty, Piece.Empty,
   Piece.Empty, Piece.Empty, Piece.Empty]

def c6S1 : GState :=
  [Piece.X, Piece.Empty, Piece.Empty, Piece.Empty, Piece.Empty, Piece.Empty,
   Piece.Empty, Piece.Empty, Piece.Empty]

def c6S2 : GState :=
  [Piece.X, Piece.O, Piece.Empty, Piece.Empty, Piece.Empty, Piece.Empty,
   Piece.Empty, Piece.Empty, Piece.Empty]

def c6S3 : GState :=
  [Piece.X, Piece.O, Piece.Empty, Piece.X, Piece.Empty, Piece.Empty,
   Piece.Empty, Piece.Empty, Piece.Empty]

/-- The terminal state of the C6 episode: X completed column 0. -/
def c6Terminal : GState :=
  [Piece.X, Piece.O, Piece.O, Piece.X, Piece.Empty, Piece.Empty,
   Piece.X, Piece.Empty, Piece.Empty]

def c6Board1 : BoardG := makeAutoPlayerMove emptyBoard 0 0 Piece.X

def c6Board2 : BoardG := makeAutoPlayerMove c6Board1 0 1 Piece.O

def c6Board3 : BoardG := makeAutoPlayerMove c6Board2 1 0 Piece.X

def c6Board4 : BoardG := makeAutoPlayerMove c6Board3 0 2 Piece.O

def c6Board5 : BoardG := makeAutoPlayerMove c6Board4 2 0 Piece.X

/-- Candidate moves and values of the five greedy steps of the C6 forced
episode, and the table states the steps produce; the TD-updated entries
keep the unevaluated update expression the code computes. -/
def c6M1 : List (Nat × Nat) :=
  [(0, 0), (0, 1), (0, 2), (1, 0), (1, 1), (1, 2), (2, 0), (2, 1), (2, 2)]

def c6P1 : List ℚ :=
  [1 / 2, 1 / 2, 1 / 2, 1 / 2, 1 / 2, 1 / 2, 1 / 2, 1 / 2, 1 / 2]

def c6M2 : List (Nat × Nat) :=
  [(0, 1), (0, 2), (1, 0), (1, 1), (1, 2), (2, 0), (2, 1), (2, 2)]

def c6P2 : List ℚ :=
  [1 / 2, 1 / 2, 1 / 2, 1 / 2, 1 / 2, 1 / 2, 1 / 2, 1 / 2]

def c6M3 : List (Nat × Nat) :=
  [(0, 2), (1, 0), (1, 1), (1, 2), (2, 0), (2, 1), (2, 2)]

def c6P3 : List ℚ :=
  [1 / 2, 1 / 2, 1 / 2, 1 / 2, 1 / 2, 1 / 2, 1 / 2]

def c6M4 : List (Nat × Nat) :=
  [(0, 2), (1, 1), (1, 2), (2, 0), (2, 1), (2, 2)]

def c6P4 : List ℚ :=
  [1 / 2, 1 / 2, 1 / 2, 1 / 2, 1 / 2, 1 / 2]

def c6M5 : List (Nat × Nat) :=
  [(1, 1), (1, 2), (2, 0), (2, 1), (2, 2)]

def c6P5 : List ℚ :=
  [1 / 2, 1 / 2, 1, 1 / 2, 1 / 2]

def c6TphaseX1 : Table :=
  [([Piece.X, Piece.Empty, Piece.Empty, Piece.Empty, Piece.Empty, Piece.Empty, Piece.Empty, Piece.Empty, Piece.Empty], 1 / 2),
   ([Piece.Empty, Piece.X, Piece.Empty, Piece.Empty, Piece.Empty, Piece.Empty, Piece.Empty, Piece.Empty, Piece.Empty], 1 / 2),
   ([Piece.Empty, Piece.Empty, Piece.X, Piece.Empty, Piece.Empty, Piece.Empty, Piece.Empty, Piece.Empty, Piece.Empty], 1 / 2),
   ([Piece.Empty, Piece.Empty, Piece.Empty, Piece.X, Piece.Empty, Piece.Empty, Piece.Empty, Piece.Empty, Piece.Empty], 1 / 2),
   ([Piece.Empty, Piece.Empty, Piece.Empty, Piece.Empty, Piece.X, Piece.Empty, Piece.Empty, Piece.Empty, Piece.Empty], 1 / 2),
   ([Piece.Empty, Piece.Empty, Piece.Empty, Piece.Empty, Piece.Empty, Piece.X, Piece.Empty, Piece.Empty, Piece.Empty], 1 / 2),
   ([Piece.Empty, Piece.Empty, Piece.Empty, Piece.Empty, Piece.Empty, Piece.Empty, Piece.X, Piece.Empty, Piece.Empty], 1 / 2),
   ([Piece.Empty, Piece.Empty, Piece.Empty, Piece.Empty, Piece.Empty, Piece.Empty, Piece.Empty, Piece.X, Piece.Empty], 1 / 2),
   ([Piece.Empty, Piece.Empty, Piece.Empty, Piece.Empty, Piece.Empty, Piece.Empty, Piece.Empty, Piece.Empty, Piece.X], 1 / 2)]

def c6TX1 : Table :=
  c6TphaseX1 ++ [([Piece.Empty, Piece.Empty, Piece.Empty, Piece.Empty, Piece.Empty, Piece.Empty, Piece.Empty, Piece.Empty, Piece.Empty], 1 / 2 + 0 * (1 / 2 - 1 / 2))]

def c6TphaseO1 : Table :=
  [([Piece.X, Piece.O, Piece.Empty, Piece.Empty, Piece.Empty, Piece.Empty, Piece.Empty, Piece.Empty, Piece.Empty], 1 / 2),
   ([Piece.X, Piece.Empty, Piece.O, Piece.Empty, Piece.Empty, Piece.Empty, Piece.Empty, Piece.Empty, Piece.Empty], 1 / 2),
   ([Piece.X, Piece.Empty, Piece.Empty, Piece.O, Piece.Empty, Piece.Empty, Piece.Empty, Piece.Empty, Piece.Empty], 1 / 2),
   ([Piece.X, Piece.Empty, Piece.Empty, Piece.Empty, Piece.O, Piece.Empty, Piece.Empty, Piece.Empty, Piece.Empty], 1 / 2),
   ([Piece.X, Piece.Empty, Piece.Empty, Piece.Empty, Piece.Empty, Piece.O, Piece.Empty, Piece.Empty, Piece.Empty], 1 / 2),
   ([Piece.X, Piece.Empty, Piece.Empty, Piece.Empty, Piece.Empty, Piece.Empty, Piece.O, Piece.Empty, Piece.Empty], 1 / 2),
   ([Piece.X, Piece.Empty, Piece.Empty, Piece.Empty, Piece.Empty, Piece.Empty, Piece.Empty, Piece.O, Piece.Empty], 1 / 2),
   ([Piece.X, Piece.Empty, Piece.Empty, Piece.Empty, Piece.Empty, Piece.Empty, Piece.Empty, Piece.Empty, Piece.O], 1 / 2)]

def c6TO1 (lr : ℚ) : Table :=
  c6TphaseO1 ++ [([Piece.X, Piece.Empty, Piece.Empty, Piece.Empty, Piece.Empty, Piece.Empty, Piece.Empty, Piece.Empty, Piece.Empty], 1 / 2 + lr * (1 / 2 - 1 / 2))]

def c6TphaseX2 : Table :=
  c6TX1 ++
  [([Piece.X, Piece.O, Piece.X, Piece.Empty, Piece.Empty, Piece.Empty, Piece.Empty, Piece.Empty, Piece.Empty], 1 / 2),
   ([Piece.X, Piece.O, Piece.Empty, Piece.X, Piece.Empty, Piece.Empty, Piece.Empty, Piece.Empty, Piece.Empty], 1 / 2),
   ([Piece.X, Piece.O, Piece.Empty, Piece.Empty, Piece.X, Piece.Empty, Piece.Empty, Piece.Empty, Piece.Empty], 1 / 2),
   ([Piece.X, Piece.O, Piece.Empty, Piece.Empty, Piece.Empty, Piece.X, Piece.Empty, Piece.Empty, Piece.Empty], 1 / 2),
   ([Piece.X, Piece.O, Piece.Empty, Piece.Empty, Piece.Empty, Piece.Empty, Piece.X, Piece.Empty, Piece.Empty], 1 / 2),
   ([Piece.X, Piece.O, Piece.Empty, Piece.Empty, Piece.Empty, Piece.Empty, Piece.Empty, Piece.X, Piece.Empty], 1 / 2),
   ([Piece.X, Piece.O, Piece.Empty, Piece.Empty, Piece.Empty, Piece.Empty, Piece.Empty, Piece.Empty, Piece.X], 1 / 2)]

def c6TX2 : Table :=
  c6TphaseX2 ++ [([Piece.X, Piece.O, Piece.Empty, Piece.Empty, Piece.Empty, Piece.Empty, Piece.Empty, Piece.Empty, Piece.Empty], 1 / 2 + 0 * (1 / 2 - 1 / 2))]

def c6TphaseO2 (lr : ℚ) : Table :=
  c6TO1 lr ++
  [([Piece.X, Piece.O, Piece.O, Piece.X, Piece.Empty, Piece.Empty, Piece.Empty, Piece.Empty, Piece.Empty], 1 / 2),
   ([Piece.X, Piece.O, Piece.Empty, Piece.X, Piece.O, Piece.Empty, Piece.Empty, Piece.Empty, Piece.Empty], 1 / 2),
   ([Piece.X, Piece.O, Piece.Empty, Piece.X, Piece.Empty, Piece.O, Piece.Empty, Piece.Empty, Piece.Empty], 1 / 2),
   ([Piece.X, Piece.O, Piece.Empty, Piece.X, Piece.Empty, Piece.Empty, Piece.O, Piece.Empty, Piece.Empty], 1 / 2),
   ([Piece.X, Piece.O, Piece.Empty, Piece.X, Piece.Empty, Piece.Empty, Piece.Empty, Piece.O, Piece.Empty], 1 / 2),
   ([Piece.X, Piece.O, Piece.Empty, Piece.X, Piece.Empty, Piece.Empty, Piece.Empty, Piece.Empty, Piece.O], 1 / 2)]

def c6TO2 (lr : ℚ) : Table :=
  c6TphaseO2 lr ++ [([Piece.X, Piece.O, Piece.Empty, Piece.X, Piece.Empty, Piece.Empty, Piece.Empty, Piece.Empty, Piece.Empty], 1 / 2 + lr * (1 / 2 - 1 / 2))]

def c6TphaseX3 : Table :=
  c6TX2 ++
  [([Piece.X, Piece.O, Piece.O, Piece.X, Piece.X, Piece.Empty, Piece.Empty, Piece.Empty, Piece.Empty], 1 / 2),
   ([Piece.X, Piece.O, Piece.O, Piece.X, Piece.Empty, Piece.X, Piece.Empty, Piece.Empty, Piece.Empty], 1 / 2),
   ([Piece.X, Piece.O, Piece.O, Piece.X, Piece.Empty, Piece.Empty, Piece.X, Piece.Empty, Piece.Empty], 1),
   ([Piece.X, Piece.O, Piece.O, Piece.X, Piece.Empty, Piece.Empty, Piece.Empty, Piece.X, Piece.Empty], 1 / 2),
   ([Piece.X, Piece.O, Piece.O, Piece.X, Piece.Empty, Piece.Empty, Piece.Empty, Piece.Empty, Piece.X], 1 / 2)]

def c6TX3 : Table :=
  c6TphaseX3 ++ [([Piece.X, Piece.O, Piece.O, Piece.X, Piece.Empty, Piece.Empty, Piece.Empty, Piece.Empty, Piece.Empty], 1 / 2 + 0 * (1 - 1 / 2))]

/-- The X player state after each of its moves of the C6 episode. -/
def c6PX1 : PlayerM :=
  { piece := Piece.X, stateSpace := c6TX1, initialLearningRate := 0,
    initialExplorationRate := 0, iteration := 0,
    learningFn := fun r _ => r, explorationFn := fun r _ => r }

def c6PX2 : PlayerM :=
  { piece := Piece.X, stateSpace := c6TX2, initialLearningRate := 0,
    initialExplorationRate := 0, iteration := 0,
    learningFn := fun r _ => r, explorationFn := fun r _ => r }

def c6PX3 : PlayerM :=
  { piece := Piece.X, stateSpace := c6TX3, initialLearningRate := 0,
    initialExplorationRate := 0, iteration := 0,
    learningFn := fun r _ => r, explorationFn := fun r _ => r }

/-- The O player state after each of its moves of the C6 episode. -/
def c6PO1 (lr : ℚ) : PlayerM :=
  { piece := Piece.O, stateSpace := c6TO1 lr, initialLearningRate := lr,
    initialExplorationRate := 0, iteration := 0,
    learningFn := fun r _ => r, explorationFn := fun r _ => r }

def c6PO2 (lr : ℚ) : PlayerM :=
  { piece := Piece.O, stateSpace := c6TO2 lr, initialLearningRate := lr,
    initialExplorationRate := 0, iteration := 0,
    learningFn := fun r _ => r, explorationFn := fun r _ => r }

/-- A sequence of `make_move` calls against one player, each with its board
state and its two oracle draws; the run stops at a panic (`none`). This is
the ambient loop of any caller of `Player::make_move`. -/
def runMakeMoves : PlayerM → List (GState × ℚ × Nat) → PlayerM
  | p, [] => p
  | p, (s, rv, ci) :: rest =>
      match makeMove p s rv ci with
      | none => p
      | some (_, p2) => runMakeMoves p2 rest

/-- A fresh X player whose initial learning rate 2 is accepted unchecked by
`Player::new`, with the repository annealing schedule and a zero
exploration rate, used as the C4 counterexample player. -/
def c4Player : PlayerM :=
  { piece := Piece.X, stateSpace := [], initialLearningRate := 2,
    initialExplorationRate := 0, iteration := 0,
    learningFn := learning_rate_function, explorationFn := exploration_rate_function }

/-- A position in which X, to move, can win at cell 2; the winning
successor evaluates to 1 so the TD update overshoots when the learning
rate exceeds 1. -/
def c4State : GState :=
  [Piece.X, Piece.X, Piece.Empty,
   Piece.O, Piece.O, Piece.Empty,
   Piece.Empty, Piece.Empty, Piece.Empty]

/-- A two-move position with seven empty cells used to instantiate the
make-move theorems at a concrete input. -/
def c2WState : GState :=
  [Piece.X, Piece.O, Piece.Empty,
   Piece.Empty, Piece.Empty, Piece.Empty,
   Piece.Empty, Piece.Empty, Piece.Empty]

/-- A fresh X player that never explores (rate 0) with unit learning rate
and identity annealing, so the greedy path of `make_move` is forced. -/
def c2WPlayer : PlayerM :=
  { piece := Piece.X, stateSpace := [], initialLearningRate := 1,
    initialExplorationRate := 0, iteration := 0,
    learningFn := fun r _ => r, explorationFn := fun r _ => r }

/-- A fresh X player that always explores (rate 1, identity annealing), so
the random path of `make_move` is forced. -/
def c5WPlayer : PlayerM :=
  { piece := Piece.X, stateSpace := [], initialLearningRate := 1,
    initialExplorationRate := 1, iteration := 0,
    learningFn := fun r _ => r, explorationFn := fun r _ => r }

/-- Discriminant byte of `Piece` under borsh: declaration order
`Empty = 0`, `X = 1`, `O = 2`. -/
def pieceByte : Piece → Nat
  | Piece.Empty => 0
  | Piece.X => 1
  | Piece.O => 2

/-- Borsh deserialization of a `Piece` discriminant byte; any other byte
is a read error. -/
def byteToPiece : Nat → Option Piece
  | 0 => some Piece.Empty
  | 1 => some Piece.X
  | 2 => some Piece.O
  | _ => none

/-- Little-endian byte encoding of a natural at a fixed width, as borsh
writes `u32` (width 4) and the bit pattern of `f64` (width 8). -/
def encodeNatLE : Nat → Nat → List Nat
  | 0, _ => []
  | w + 1, v => v % 256 :: encodeNatLE w (v / 256)

/-- Little-endian fixed-width read of a natural from a byte stream. -/
def decodeNatLE : Nat → List Nat → Option (Nat × List Nat)
  | 0, bs => some (0, bs)
  | _ + 1, [] => none
  | w + 1, b :: rest =>
      match decodeNatLE w rest with
      | none => none
      | some (v, rest2) => some (b + 256 * v, rest2)

/-- The IEEE-754 double NaN test on the raw 64-bit pattern: exponent bits
all ones and a nonzero mantissa. Borsh rejects NaN on deserialization of
an `f64`. -/
def isNanBits (bits : Nat) : Bool :=
  (bits / 2 ^ 52 % 2 ^ 11 == 2 ^ 11 - 1) && !(bits % 2 ^ 52 == 0)

/-- Borsh deserialization of an `f64`, kept as its raw bit pattern: eight
little-endian bytes followed by the NaN rejection. -/
def decodeF64 (bs : List Nat) : Option (Nat × List Nat) :=
  match decodeNatLE 8 bs with
  | none => none
  | some (bits, rest) => if isNanBits bits = true then none else some (bits, rest)

/-- Borsh deserialization of one `Piece`. -/
def decodePiece : List Nat → Option (Piece × List Nat)
  | [] => none
  | b :: rest =>
      match byteToPiece b with
      | none => none
      | some p => some (p, rest)

/-- Borsh deserialization of a fixed-size `[Piece; n]` array: the elements
in order with no length prefix. -/
def decodePieces : Nat → List Nat → Option (GState × List Nat)
  | 0, bs => some ([], bs)
  | n + 1, bs =>
      match decodePiece bs with
      | none => none
      | some (p, rest) =>
          match decodePieces n rest with
          | none => none
          | some (ps, rest2) => some (p :: ps, rest2)

/-- The strict lexicographic key order `[Piece; 9] < [Piece; 9]` of the
derived `Ord`, used by borsh to sort the map entries before writing. -/
def keyLtB : GState → GState → Bool
  | [], [] => false
  | [], _ :: _ => true
  | _ :: _, [] => false
  | a :: as, b :: bs =>
      if pieceByte a < pieceByte b then true
      else if pieceByte b < pieceByte a then false
      else keyLtB as bs

/-- The bit-pattern-valued save table: the `HashMap<[Piece; 9], f64>` with
each `f64` kept as its raw 64-bit pattern. -/
abbrev TableB := List (GState × Nat)

/-- Association lookup in the bit-pattern table. -/
def tableGetB : TableB → GState → Option Nat
  | [], _ => none
  | (k, v) :: rest, key => if k = key then some v else tableGetB rest key

/-- Ascending insertion preserving the relative order of equal keys; the
building block of the model of borsh's comparison sort of the entries. -/
def insertSorted (x : GState × Nat) : TableB → TableB
  | [] => [x]
  | y :: ys => if keyLtB x.1 y.1 then x :: y :: ys else y :: insertSorted x ys

/-- Sort of the map entries by key, the canonical entry order borsh
writes. Distinct keys make every comparison sort agree, so insertion sort
is extensionally the sort the source performs. -/
def sortByKey : TableB → TableB
  | [] => []
  | x :: xs => insertSorted x (sortByKey xs)

/-- Borsh encoding of one map entry: the nine key bytes then the eight
value bytes. -/
def encodeEntry (e : GState × Nat) : List Nat :=
  e.1.map pieceByte ++ encodeNatLE 8 e.2

/-- Borsh encoding of the entry list. -/
def encodeEntries : TableB → List Nat
  | [] => []
  | e :: rest => encodeEntry e ++ encodeEntries rest

/-- Borsh deserialization of one map entry. -/
def decodeEntry (bs : List Nat) : Option ((GState × Nat) × List Nat) :=
  match decodePieces 9 bs with
  | none => none
  | some (k, rest) =>
      match decodeF64 rest with
      | none => none
      | some (v, rest2) => some ((k, v), rest2)

/-- Borsh deserialization of a counted entry list. -/
def decodeEntries : Nat → List Nat → Option (TableB × List Nat)
  | 0, bs => some ([], bs)
  | n + 1, bs =>
      match decodeEntry bs with
      | none => none
      | some (e, rest) =>
          match decodeEntries n rest with
          | none => none
          | some (es, rest2) => some (e :: es, rest2)

/-- The `SaveState` struct of players.rs at the byte level: the two rates
are kept as raw `f64` bit patterns and the table is `TableB`. -/
structure SaveStateB where
  piece : Piece
  stateSpace : TableB
  initialLearningRate : Nat
  initialExplorationRate : Nat
  iteration : Nat

/-- Borsh serialization of `SaveState`, field by field in declaration
order: the piece discriminant, the `u32` entry count, the entries sorted
by key, the two `f64` rates, and the `u32` iteration. -/
def serializeSaveState (s : SaveStateB) : List Nat :=
  pieceByte s.piece ::
    (encodeNatLE 4 s.stateSpace.length ++ encodeEntries (sortByKey s.stateSpace) ++
     encodeNatLE 8 s.initialLearningRate ++ encodeNatLE 8 s.initialExplorationRate ++
     encodeNatLE 4 s.iteration)

/-- Borsh deserialization of `SaveState` via `from_reader`, which reads
exactly the needed bytes and ignores anything after them. -/
def deserializeSaveState (bs : List Nat) : Option SaveStateB :=
  match decodePiece bs with
  | none => none
  | some (pc, r1) =>
      match decodeNatLE 4 r1 with
      | none => none
      | some (len, r2) =>
          match decodeEntries len r2 with
          | none => none
          | some (table, r3) =>
              match decodeF64 r3 with
              | none => none
              | some (lr, r4) =>
                  match decodeF64 r4 with
                  | none => none
                  | some (er, r5) =>
                      match decodeNatLE 4 r5 with
                      | none => none
                      | some (it, _) =>
                          some { piece := pc, stateSpace := table,
                                 initialLearningRate := lr,
                                 initialExplorationRate := er, iteration := it }

/-- The `Player` struct at the persistence level: its savable state plus
the two annealing functions, which are not serialized and are supplied
anew on load. -/
structure PlayerB where
  saveState : SaveStateB
  learningFn : ℚ → Nat → ℚ
  explorationFn : ℚ → Nat → ℚ

/-- `Player::save_player_state` (players.rs) with the file write modelled
as returning the written bytes. -/
def savePlayerState (p : PlayerB) : List Nat :=
  serializeSaveState p.saveState

/-- `Player::new_from_file` (players.rs) with the file read modelled as
receiving the stored bytes: deserialize the save state and attach the two
annealing functions passed in; a fresh generator is drawn from entropy and
carries no state. -/
def newFromFile (bytes : List Nat) (lf ef : ℚ → Nat → ℚ) : Option PlayerB :=
  match deserializeSaveState bytes with
  | none => none
  | some s => some { saveState := s, learningFn := lf, explorationFn := ef }

/-- A saved player with a two-entry table stored in descending key order,
so the save path has to sort; values are arbitrary non-NaN bit patterns. -/
def c8WPlayer : PlayerB :=
  { saveState :=
      { piece := Piece.O,
        stateSpace :=
          [([Piece.X, Piece.Empty, Piece.Empty, Piece.Empty, Piece.Empty,
             Piece.Empty, Piece.Empty, Piece.Empty, Piece.Empty], 42),
           ([Piece.Empty, Piece.Empty, Piece.Empty, Piece.Empty, Piece.Empty,
             Piece.Empty, Piece.Empty, Piece.Empty, Piece.Empty], 7)],
        initialLearningRate := 4604930618986332160,
        initialExplorationRate := 4596373779694328218,
        iteration := 12 },
    learningFn := learning_rate_function,
    explorationFn := exploration_rate_function }

theorem tableGet_insert_self (t : Table) (k : GState) (v : ℚ) :
    tableGet (tableInsert t k v) k = some v := by
  induction t with
  | nil => simp [tableInsert, tableGet]
  | cons e rest ih =>
      obtain ⟨k0, w⟩ := e
      by_cases h : k0 = k
      · simp [tableInsert, tableGet, h]
      · simp [tableInsert, tableGet, h, ih]

theorem tableGet_insert_ne (t : Table) (k k' : GState) (v : ℚ) (h : k ≠ k') :
    tableGet (tableInsert t k v) k' = tableGet t k' := by
  induction t with
  | nil => simp [tableInsert, tableGet, h]
  | cons e rest ih =>
      obtain ⟨k0, w⟩ := e
      by_cases h0 : k0 = k
      · subst h0
        simp [tableInsert, tableGet, h]
      · simp [tableInsert, tableGet, h0, ih]

theorem tableGet_insert_cases (t : Table) (k k' : GState) (v w : ℚ)
    (h : tableGet (tableInsert t k v) k' = some w) : w = v ∨ tableGet t k' = some w := by
  induction t with
  | nil =>
      simp [tableInsert, tableGet] at h
      exact Or.inl (by simp [h.2])
  | cons e rest ih =>
      obtain ⟨k0, w0⟩ := e
      by_cases h0 : k0 = k
      · subst h0
        simp only [tableInsert, if_pos rfl, tableGet] at h
        by_cases h1 : k0 = k'
        · simp [h1] at h
          exact Or.inl h.symm
        · simp only [tableGet, if_neg h1]
          simp [h1] at h
          exact Or.inr h
      · simp only [tableInsert, if_neg h0, tableGet] at h
        by_cases h1 : k0 = k'
        · simp only [if_pos h1] at h
          exact Or.inr (by simp [tableGet, h1, h])
        · simp only [if_neg h1] at h
          rcases ih h with hv | hget
          · exact Or.inl hv
          · exact Or.inr (by simp [tableGet, h1, hget])

theorem tableGet_modify_ne (t : Table) (k k' : GState) (f : ℚ → ℚ) (h : k ≠ k') :
    tableGet (tableModify t k f) k' = tableGet t k' := by
  induction t with
  | nil => simp [tableModify, tableGet]
  | cons e rest ih =>
      obtain ⟨k0, w⟩ := e
      by_cases h0 : k0 = k
      · subst h0
        simp [tableModify, tableGet, h]
      · simp [tableModify, tableGet, h0, ih]

theorem tableGet_modify_self (t : Table) (k : GState) (f : ℚ → ℚ) (v : ℚ)
    (h : tableGet t k = some v) :
    tableGet (tableModify t k f) k = some (f v) := by
  induction t with
  | nil => simp [tableGet] at h
  | cons e rest ih =>
      obtain ⟨k0, w⟩ := e
      by_cases h0 : k0 = k
      · subst h0
        have hw : w = v := by simpa [tableGet] using h
        subst hw
        simp [tableModify, tableGet]
      · simp only [tableGet, if_neg h0] at h
        simp [tableModify, tableGet, h0, ih h]

theorem tableGet_modify_cases (t : Table) (k k' : GState) (f : ℚ → ℚ) (w : ℚ)
    (h : tableGet (tableModify t k f) k' = some w) :
    (∃ v, tableGet t k' = some v ∧ w = f v) ∨ tableGet t k' = some w := by
  induction t with
  | nil => simp [tableModify, tableGet] at h
  | cons e rest ih =>
      obtain ⟨k0, w0⟩ := e
      by_cases h0 : k0 = k
      · subst h0
        simp only [tableModify, if_pos rfl, tableGet] at h
        by_cases h1 : k0 = k'
        · simp only [if_pos h1] at h
          exact Or.inl ⟨w0, by simp [tableGet, h1], (Option.some.inj h).symm⟩
        · simp only [if_neg h1] at h
          exact Or.inr (by simp [tableGet, h1, h])
      · simp only [tableModify, if_neg h0, tableGet] at h
        by_cases h1 : k0 = k'
        · simp only [if_pos h1] at h
          exact Or.inr (by simp [tableGet, h1, h])
        · simp only [if_neg h1] at h
          rcases ih h with ⟨v, hv, hw⟩ | hget
          · exact Or.inl ⟨v, by simp [tableGet, h1, hv], hw⟩
          · exact Or.inr (by simp [tableGet, h1, hget])

theorem tableGet_lazyInsert_self (t : Table) (k : GState) (d : ℚ) :
    tableGet (if tableContains t k then t else tableInsert t k d) k =
      some ((tableGet t k).getD d) := by
  cases hv : tableGet t k with
  | some v => simp [tableContains, hv]
  | none => simp [tableContains, hv, tableGet_insert_self]

theorem tableGet_lazyInsert_ne (t : Table) (k k' : GState) (d : ℚ) (h : k ≠ k') :
    tableGet (if tableContains t k then t else tableInsert t k d) k' = tableGet t k' := by
  by_cases hc : tableContains t k
  · simp [hc]
  · simp [hc, tableGet_insert_ne t k k' d h]

theorem tableGet_lazyInsert_cases (t : Table) (k k' : GState) (d w : ℚ)
    (h : tableGet (if tableContains t k then t else tableInsert t k d) k' = some w) :
    w = d ∨ tableGet t k' = some w := by
  by_cases hc : tableContains t k
  · rw [if_pos hc] at h
    exact Or.inr h
  · rw [if_neg hc] at h
    exact tableGet_insert_cases t k k' d w h

theorem cell_set_self : ∀ (s : GState) (i : Nat) (p : Piece), i < s.length →
    cell (s.set i p) i = p
  | [], i, p, h => absurd h (by simp)
  | _ :: _, 0, _, _ => rfl
  | _ :: rest, i + 1, p, h => cell_set_self rest i p (by simpa using h)

theorem cell_set_ne : ∀ (s : GState) (i j : Nat) (p : Piece), i ≠ j →
    cell (s.set i p) j = cell s j
  | [], _, _, _, _ => rfl
  | _ :: _, 0, 0, _, h => absurd rfl h
  | _ :: _, 0, _ + 1, _, _ => rfl
  | _ :: _, _ + 1, 0, _, _ => rfl
  | _ :: rest, i + 1, j + 1, p, h => cell_set_ne rest i j p (fun hh => h (by omega))

theorem set_ne_self (s : GState) (i : Nat) (p : Piece) (hi : i < s.length)
    (hc : cell s i = Piece.Empty) (hp : p ≠ Piece.Empty) : s.set i p ≠ s := by
  intro h
  have h2 := congrArg (fun l => cell l i) h
  simp only at h2
  rw [cell_set_self s i p hi] at h2
  exact hp (h2.trans hc)

theorem set_ne_set (s : GState) (i j : Nat) (p : Piece) (hj : j < s.length)
    (hij : i ≠ j) (hcj : cell s j = Piece.Empty) (hp : p ≠ Piece.Empty) :
    s.set i p ≠ s.set j p := by
  intro h
  have h2 := congrArg (fun l => cell l j) h
  simp only at h2
  rw [cell_set_ne s i j p hij, cell_set_self s j p hj, hcj] at h2
  exact hp h2.symm

theorem findNewStateProb_cases (piece : Piece) (s : GState) :
    findNewStateProb piece s = 0 ∨ findNewStateProb piece s = 1 / 2 ∨
      findNewStateProb piece s = 1 := by
  unfold findNewStateProb
  cases hw : checkWinner s with
  | some p => by_cases h : piece = p <;> simp [h]
  | none => by_cases h : checkFull s <;> simp [h]

theorem findNewStateProb_range (piece : Piece) (s : GState) :
    0 ≤ findNewStateProb piece s ∧ findNewStateProb piece s ≤ 1 := by
  rcases findNewStateProb_cases piece s with h | h | h <;> rw [h] <;> norm_num

theorem maxFold_cons (p : ℚ) (rest : List ℚ) (acc : ℚ) :
    maxFold (p :: rest) acc = maxFold rest (if p > acc then p else acc) := by
  by_cases h : p > acc <;> simp [maxFold, List.foldl, h]

theorem maxFold_acc_le (l : List ℚ) : ∀ acc : ℚ, acc ≤ maxFold l acc := by
  induction l with
  | nil => intro acc; simp [maxFold]
  | cons p rest ih =>
      intro acc
      rw [maxFold_cons]
      by_cases h : p > acc
      · exact le_trans (le_of_lt h) (by simpa [h] using ih p)
      · simpa [h] using ih acc

theorem maxFold_ub (l : List ℚ) : ∀ (acc q : ℚ), q ∈ l → q ≤ maxFold l acc := by
  induction l with
  | nil => intro acc q h; simp at h
  | cons p rest ih =>
      intro acc q hq
      rw [maxFold_cons]
      rcases List.mem_cons.mp hq with hq | hq
      · subst hq
        refine le_trans ?_ (maxFold_acc_le rest _)
        by_cases h : q > acc
        · rw [if_pos h]
        · rw [if_neg h]
          exact le_of_not_lt h
      · exact ih _ q hq

theorem maxFold_mem (l : List ℚ) : ∀ acc : ℚ, maxFold l acc = acc ∨ maxFold l acc ∈ l := by
  induction l with
  | nil => intro acc; simp [maxFold]
  | cons p rest ih =>
      intro acc
      rw [maxFold_cons]
      by_cases h : p > acc
      · rw [if_pos h]
        rcases ih p with h2 | h2
        · exact Or.inr (by rw [h2]; exact List.mem_cons_self p rest)
        · exact Or.inr (List.mem_cons_of_mem p h2)
      · rw [if_neg h]
        rcases ih acc with h2 | h2
        · exact Or.inl h2
        · exact Or.inr (List.mem_cons_of_mem p h2)

theorem bestFold_cons (m : (Nat × Nat) × ℚ) (rest : List ((Nat × Nat) × ℚ))
    (maxP : ℚ) (best : List (Nat × Nat)) :
    bestFold (m :: rest) maxP best =
      if m.2 > maxP then bestFold rest m.2 [m.1]
      else if m.2 = maxP then bestFold rest maxP (best ++ [m.1])
      else bestFold rest maxP best := by
  obtain ⟨mv, p⟩ := m
  rfl

theorem bestFold_max_acc_le (l : List ((Nat × Nat) × ℚ)) :
    ∀ (maxP : ℚ) (best : List (Nat × Nat)), maxP ≤ (bestFold l maxP best).1 := by
  induction l with
  | nil => intro maxP best; simp [bestFold]
  | cons m rest ih =>
      intro maxP best
      rw [bestFold_cons]
      by_cases h : m.2 > maxP
      · rw [if_pos h]
        exact le_trans (le_of_lt h) (ih m.2 [m.1])
      · rw [if_neg h]
        by_cases h2 : m.2 = maxP
        · rw [if_pos h2]; exact ih maxP (best ++ [m.1])
        · rw [if_neg h2]; exact ih maxP best

theorem bestFold_max_ub (l : List ((Nat × Nat) × ℚ)) :
    ∀ (maxP : ℚ) (best : List (Nat × Nat)) (mp : (Nat × Nat) × ℚ), mp ∈ l →
      mp.2 ≤ (bestFold l maxP best).1 := by
  induction l with
  | nil => intro maxP best mp h; simp at h
  | cons m rest ih =>
      intro maxP best mp hmp
      rw [bestFold_cons]
      rcases List.mem_cons.mp hmp with hmp | hmp
      · subst hmp
        by_cases h : mp.2 > maxP
        · rw [if_pos h]; exact bestFold_max_acc_le rest mp.2 [mp.1]
        · rw [if_neg h]
          have hle : mp.2 ≤ maxP := le_of_not_lt h
          by_cases h2 : mp.2 = maxP
          · rw [if_pos h2]
            exact le_trans hle (bestFold_max_acc_le rest maxP (best ++ [mp.1]))
          · rw [if_neg h2]
            exact le_trans hle (bestFold_max_acc_le rest maxP best)
      · by_cases h : m.2 > maxP
        · rw [if_pos h]; exact ih m.2 [m.1] mp hmp
        · rw [if_neg h]
          by_cases h2 : m.2 = maxP
          · rw [if_pos h2]; exact ih maxP (best ++ [m.1]) mp hmp
          · rw [if_neg h2]; exact ih maxP best mp hmp

theorem bestFold_max_mem (l : List ((Nat × Nat) × ℚ)) :
    ∀ (maxP : ℚ) (best : List (Nat × Nat)),
      (bestFold l maxP best).1 = maxP ∨ ∃ mp ∈ l, (bestFold l maxP best).1 = mp.2 := by
  induction l with
  | nil => intro maxP best; simp [bestFold]
  | cons m rest ih =>
      intro maxP best
      rw [bestFold_cons]
      by_cases h : m.2 > maxP
      · rw [if_pos h]
        rcases ih m.2 [m.1] with h2 | ⟨mp, hmem, h2⟩
        · exact Or.inr ⟨m, List.mem_cons_self m rest, h2⟩
        · exact Or.inr ⟨mp, List.mem_cons_of_mem m hmem, h2⟩
      · rw [if_neg h]
        by_cases h2 : m.2 = maxP
        · rw [if_pos h2]
          rcases ih maxP (best ++ [m.1]) with h3 | ⟨mp, hmem, h3⟩
          · exact Or.inl h3
          · exact Or.inr ⟨mp, List.mem_cons_of_mem m hmem, h3⟩
        · rw [if_neg h2]
          rcases ih maxP best with h3 | ⟨mp, hmem, h3⟩
          · exact Or.inl h3
          · exact Or.inr ⟨mp, List.mem_cons_of_mem m hmem, h3⟩

theorem bestFold_best_ne_nil (l : List ((Nat × Nat) × ℚ)) :
    ∀ (maxP : ℚ) (best : List (Nat × Nat)), best ≠ [] → (bestFold l maxP best).2 ≠ [] := by
  induction l with
  | nil => intro maxP best h; simpa [bestFold] using h
  | cons m rest ih =>
      intro maxP best h
      rw [bestFold_cons]
      by_cases h1 : m.2 > maxP
      · rw [if_pos h1]; exact ih m.2 [m.1] (by simp)
      · rw [if_neg h1]
        by_cases h2 : m.2 = maxP
        · rw [if_pos h2]; exact ih maxP (best ++ [m.1]) (by simp)
        · rw [if_neg h2]; exact ih maxP best h

theorem bestFold_ne_nil_start (m : (Nat × Nat) × ℚ) (rest : List ((Nat × Nat) × ℚ))
    (maxP : ℚ) (h : maxP ≤ m.2) : (bestFold (m :: rest) maxP []).2 ≠ [] := by
  rw [bestFold_cons]
  by_cases h1 : m.2 > maxP
  · rw [if_pos h1]; exact bestFold_best_ne_nil rest m.2 [m.1] (by simp)
  · have h2 : m.2 = maxP := le_antisymm (le_of_not_lt h1) h
    rw [if_neg h1, if_pos h2]
    exact bestFold_best_ne_nil rest maxP [m.1] (by simp)

theorem drop_cons_parts {s : GState} {counter : Nat} {sq : Piece} {rest : List Piece}
    (h : s.drop counter = sq :: rest) :
    counter < s.length ∧ cell s counter = sq ∧ s.drop (counter + 1) = rest ∧
      s.length = counter + 1 + rest.length := by
  have hlen : (s.drop counter).length = s.length - counter := List.length_drop counter s
  rw [h] at hlen
  simp only [List.length_cons] at hlen
  have hlt : counter < s.length := by omega
  have hcell : cell s counter = sq := by
    have h0 : (s.drop counter)[0]? = some sq := by rw [h]; simp
    rw [List.getElem?_drop] at h0
    simp only [Nat.add_zero] at h0
    simp [cell, List.getD_eq_getElem?_getD, h0]
  have hdrop : s.drop (counter + 1) = rest := by
    have h1 : List.drop 1 (List.drop counter s) = List.drop (counter + 1) s :=
      List.drop_drop 1 counter s
    rw [← h1, h]
    rfl
  exact ⟨hlt, hcell, hdrop, by omega⟩

theorem getMoveProbability_succeeds (piece : Piece) (t : Table) (s : GState) (i : Nat)
    (hc : cell s i = Piece.Empty) :
    getMoveProbability piece t s (i / 3, i % 3) =
      some (probOf piece t (s.set i piece),
        if tableContains t (s.set i piece) then t
        else tableInsert t (s.set i piece) (findNewStateProb piece (s.set i piece))) := by
  have hidx : i / 3 * 3 + i % 3 = i := by omega
  unfold getMoveProbability
  simp only [hidx, hc, ne_eq, not_true_eq_false, if_false]
  rw [tableGet_lazyInsert_self]
  rfl

theorem potentialMovesAux_char (piece : Piece) (s : GState) (hp : piece ≠ Piece.Empty) :
    ∀ (suffix : List Piece) (counter : Nat) (t : Table), s.drop counter = suffix →
    ∃ t2, potentialMovesAux piece s suffix counter t = some
      (((List.range' counter suffix.length).filter (fun i => cell s i = Piece.Empty)).map
          (fun i => (i / 3, i % 3)),
       ((List.range' counter suffix.length).filter (fun i => cell s i = Piece.Empty)).map
          (fun i => probOf piece t (s.set i piece)),
       t2) := by
  intro suffix
  induction suffix with
  | nil =>
      intro counter t h
      exact ⟨t, rfl⟩
  | cons sq rest ih =>
      intro counter t h
      obtain ⟨hlt, hcell, hdrop, hlen⟩ := drop_cons_parts h
      by_cases hsq : sq = Piece.Empty
      · have hc : cell s counter = Piece.Empty := by rw [hcell, hsq]
        obtain ⟨t2, ih2⟩ := ih (counter + 1)
          (if tableContains t (s.set counter piece) then t
           else tableInsert t (s.set counter piece)
             (findNewStateProb piece (s.set counter piece))) hdrop
        refine ⟨t2, ?_⟩
        have hmap : ((List.range' (counter + 1) rest.length).filter
              (fun i => cell s i = Piece.Empty)).map
            (fun i => probOf piece
              (if tableContains t (s.set counter piece) then t
               else tableInsert t (s.set counter piece)
                 (findNewStateProb piece (s.set counter piece))) (s.set i piece)) =
            ((List.range' (counter + 1) rest.length).filter
              (fun i => cell s i = Piece.Empty)).map
            (fun i => probOf piece t (s.set i piece)) := by
          apply List.map_congr_left
          intro i hi
          have hmem := (List.mem_filter.mp hi).1
          have hcelli : cell s i = Piece.Empty := by
            have := (List.mem_filter.mp hi).2
            simpa using this
          have hrange := List.mem_range'_1.mp hmem
          have hne : s.set counter piece ≠ s.set i piece := by
            apply set_ne_set s counter i piece (by omega) (by omega) hcelli hp
          unfold probOf
          rw [tableGet_lazyInsert_ne t (s.set counter piece) (s.set i piece) _ hne]
        simp only [potentialMovesAux, if_pos hsq, getMoveProbability_succeeds piece t s counter hc,
          ih2, hmap]
        have hfilter : (List.range' counter (rest.length + 1)).filter
            (fun i => cell s i = Piece.Empty) =
            counter :: (List.range' (counter + 1) rest.length).filter
              (fun i => cell s i = Piece.Empty) := by
          have hr : List.range' counter (rest.length + 1) =
              counter :: List.range' (counter + 1) rest.length := rfl
          rw [hr, List.filter_cons, if_pos (by simpa using hc)]
        rw [List.length_cons, hfilter]
        rfl
      · have hc : cell s counter ≠ Piece.Empty := by rw [hcell]; exact hsq
        obtain ⟨t2, ih2⟩ := ih (counter + 1) t hdrop
        refine ⟨t2, ?_⟩
        simp only [potentialMovesAux, if_neg hsq, ih2]
        have hfilter : (List.range' counter (rest.length + 1)).filter
            (fun i => cell s i = Piece.Empty) =
            (List.range' (counter + 1) rest.length).filter
              (fun i => cell s i = Piece.Empty) := by
          have hr : List.range' counter (rest.length + 1) =
              counter :: List.range' (counter + 1) rest.length := rfl
          rw [hr, List.filter_cons, if_neg (by simpa using hc)]
        rw [List.length_cons, hfilter]

theorem getPotentialMoves_char (piece : Piece) (t : Table) (s : GState)
    (hp : piece ≠ Piece.Empty) :
    ∃ t2, getPotentialMoves piece t s = some
      (((List.range s.length).filter (fun i => cell s i = Piece.Empty)).map
          (fun i => (i / 3, i % 3)),
       ((List.range s.length).filter (fun i => cell s i = Piece.Empty)).map
          (fun i => probOf piece t (s.set i piece)),
       t2) := by
  have h := potentialMovesAux_char piece s hp s 0 t rfl
  simpa [getPotentialMoves, List.range_eq_range'] using h

theorem potentialMovesAux_get_eq (piece : Piece) (s : GState)
    (k : GState) (hk : ∀ i, i < s.length → cell s i = Piece.Empty → s.set i piece ≠ k) :
    ∀ (suffix : List Piece) (counter : Nat) (t : Table) (moves : List (Nat × Nat))
      (probs : List ℚ) (t2 : Table), s.drop counter = suffix →
    potentialMovesAux piece s suffix counter t = some (moves, probs, t2) →
    tableGet t2 k = tableGet t k := by
  intro suffix
  induction suffix with
  | nil =>
      intro counter t moves probs t2 h heq
      simp only [potentialMovesAux, Option.some.injEq, Prod.mk.injEq] at heq
      rw [← heq.2.2]
  | cons sq rest ih =>
      intro counter t moves probs t2 h heq
      obtain ⟨hlt, hcell, hdrop, hlen⟩ := drop_cons_parts h
      by_cases hsq : sq = Piece.Empty
      · have hc : cell s counter = Piece.Empty := by rw [hcell, hsq]
        rw [potentialMovesAux, if_pos hsq] at heq
        split at heq
        · simp at heq
        · rename_i prob t1 hgp
          rw [getMoveProbability_succeeds piece t s counter hc] at hgp
          simp only [Option.some.injEq, Prod.mk.injEq] at hgp
          split at heq
          · simp at heq
          · rename_i ms ps t2' haux
            simp only [Option.some.injEq, Prod.mk.injEq] at heq
            rw [← heq.2.2, ih (counter + 1) t1 ms ps t2' hdrop haux, ← hgp.2]
            exact tableGet_lazyInsert_ne t (s.set counter piece) k _
              (hk counter hlt hc)
      · rw [potentialMovesAux, if_neg hsq] at heq
        exact ih (counter + 1) t moves probs t2 hdrop heq

theorem getMoveProbability_eq (piece : Piece) (t : Table) (s : GState) (mv : Nat × Nat)
    (hc : cell s (mv.1 * 3 + mv.2) = Piece.Empty) :
    getMoveProbability piece t s mv =
      some (probOf piece t (s.set (mv.1 * 3 + mv.2) piece),
        if tableContains t (s.set (mv.1 * 3 + mv.2) piece) then t
        else tableInsert t (s.set (mv.1 * 3 + mv.2) piece)
          (findNewStateProb piece (s.set (mv.1 * 3 + mv.2) piece))) := by
  unfold getMoveProbability
  simp only [hc, ne_eq, not_true_eq_false, if_false]
  rw [tableGet_lazyInsert_self]
  rfl

theorem getMoveProbability_pred (piece : Piece) (t : Table) (s : GState)
    (mv : Nat × Nat) (q : ℚ) (t1 : Table) (P : ℚ → Prop)
    (hd : ∀ k, P (findNewStateProb piece k))
    (ht : ∀ k v, tableGet t k = some v → P v)
    (h : getMoveProbability piece t s mv = some (q, t1)) :
    (∀ k v, tableGet t1 k = some v → P v) ∧ P q := by
  by_cases hc : cell s (mv.1 * 3 + mv.2) = Piece.Empty
  · rw [getMoveProbability_eq piece t s mv hc] at h
    simp only [Option.some.injEq, Prod.mk.injEq] at h
    constructor
    · intro k v hv
      rw [← h.2] at hv
      rcases tableGet_lazyInsert_cases t _ k _ v hv with hv2 | hv2
      · rw [hv2]; exact hd _
      · exact ht k v hv2
    · rw [← h.1]
      unfold probOf
      cases hg : tableGet t (s.set (mv.1 * 3 + mv.2) piece) with
      | none => simpa [hg] using hd _
      | some w => simpa [hg] using ht _ w hg
  · unfold getMoveProbability at h
    rw [if_pos hc] at h
    simp at h

theorem potentialMovesAux_pred (piece : Piece) (s : GState) (P : ℚ → Prop)
    (hd : ∀ k, P (findNewStateProb piece k)) :
    ∀ (suffix : List Piece) (counter : Nat) (t : Table) (moves : List (Nat × Nat))
      (probs : List ℚ) (t2 : Table),
    potentialMovesAux piece s suffix counter t = some (moves, probs, t2) →
    (∀ k v, tableGet t k = some v → P v) →
    (∀ k v, tableGet t2 k = some v → P v) ∧ (∀ q ∈ probs, P q) := by
  intro suffix
  induction suffix with
  | nil =>
      intro counter t moves probs t2 heq ht
      simp only [potentialMovesAux, Option.some.injEq, Prod.mk.injEq] at heq
      refine ⟨by rw [← heq.2.2]; exact ht, ?_⟩
      rw [← heq.2.1]
      intro q hq
      simp at hq
  | cons sq rest ih =>
      intro counter t moves probs t2 heq ht
      by_cases hsq : sq = Piece.Empty
      · rw [potentialMovesAux, if_pos hsq] at heq
        split at heq
        · simp at heq
        · rename_i q0 t1 hgp
          obtain ⟨ht1, hq0⟩ := getMoveProbability_pred piece t s _ q0 t1 P hd ht hgp
          split at heq
          · simp at heq
          · rename_i ms ps t2' haux
            simp only [Option.some.injEq, Prod.mk.injEq] at heq
            obtain ⟨ht2, hps⟩ := ih (counter + 1) t1 ms ps t2' haux ht1
            refine ⟨by rw [← heq.2.2]; exact ht2, ?_⟩
            rw [← heq.2.1]
            intro q hq
            rcases List.mem_cons.mp hq with hq | hq
            · rw [hq]; exact hq0
            · exact hps q hq
      · rw [potentialMovesAux, if_neg hsq] at heq
        exact ih (counter + 1) t moves probs t2 heq ht

theorem emptyCells_ne_nil (s : GState) (hs : Piece.Empty ∈ s) :
    (List.range s.length).filter (fun i => cell s i = Piece.Empty) ≠ [] := by
  obtain ⟨⟨i, hi⟩, hget⟩ := List.mem_iff_get.mp hs
  have hcell : cell s i = Piece.Empty := by
    simp [cell, List.getD_eq_getElem?_getD, List.getElem?_eq_getElem hi]
    exact hget
  have hmem : i ∈ (List.range s.length).filter (fun j => cell s j = Piece.Empty) := by
    rw [List.mem_filter]
    exact ⟨List.mem_range.mpr hi, by simpa using hcell⟩
  exact List.ne_nil_of_mem hmem

theorem probOf_nonneg (piece : Piece) (t : Table) (k : GState)
    (hnn : ∀ k2 v, tableGet t k2 = some v → 0 ≤ v) : 0 ≤ probOf piece t k := by
  unfold probOf
  cases hg : tableGet t k with
  | none => simpa using (findNewStateProb_range piece k).1
  | some v => simpa using hnn k v hg

theorem probOf_le_one (piece : Piece) (t : Table) (k : GState)
    (h1 : ∀ k2 v, tableGet t k2 = some v → v ≤ 1) : probOf piece t k ≤ 1 := by
  unfold probOf
  cases hg : tableGet t k with
  | none => simpa using (findNewStateProb_range piece k).2
  | some v => simpa using h1 k v hg

theorem getPotentialMoves_full (piece : Piece) (t : Table) (s : GState)
    (hp : piece ≠ Piece.Empty) :
    ∃ t1, getPotentialMoves piece t s = some
        (((List.range s.length).filter (fun i => cell s i = Piece.Empty)).map
            (fun i => (i / 3, i % 3)),
         ((List.range s.length).filter (fun i => cell s i = Piece.Empty)).map
            (fun i => probOf piece t (s.set i piece)),
         t1) ∧ tableGet t1 s = tableGet t s := by
  obtain ⟨t1, h⟩ := getPotentialMoves_char piece t s hp
  refine ⟨t1, h, ?_⟩
  exact potentialMovesAux_get_eq piece s s
    (fun i hi hc => set_ne_self s i piece hi hc hp) s 0 t _ _ t1 rfl h

theorem makeOptimalMove_eq (piece : Piece) (lrate : ℚ) (t : Table) (s : GState)
    (choiceIdx : Nat) (hp : piece ≠ Piece.Empty) (hs : Piece.Empty ∈ s)
    (hnn : ∀ k v, tableGet t k = some v → 0 ≤ v) :
    ∃ moves probs t1 r,
      getPotentialMoves piece t s = some (moves, probs, t1) ∧
      makeOptimalMove piece lrate t s choiceIdx = some r ∧
      (bestFold (moves.zip probs) 0 []).1 ∈ probs ∧
      (∀ q ∈ probs, q ≤ (bestFold (moves.zip probs) 0 []).1) ∧
      tableGet r.2 s = some (probOf piece t s +
        lrate * ((bestFold (moves.zip probs) 0 []).1 - probOf piece t s)) := by
  obtain ⟨t1, hgp, hts⟩ := getPotentialMoves_full piece t s hp
  set F := (List.range s.length).filter (fun i => cell s i = Piece.Empty) with hF
  have hzip : ((F.map fun i => ((i : Nat) / 3, i % 3)).zip
        (F.map fun i => probOf piece t (s.set i piece)))
      = F.map (fun i => ((i / 3, i % 3), probOf piece t (s.set i piece))) :=
    List.zip_map' _ _ F
  have hFne : F ≠ [] := emptyCells_ne_nil s hs
  have hprobs_nonneg : ∀ q ∈ F.map (fun i => probOf piece t (s.set i piece)), 0 ≤ q := by
    intro q hq
    obtain ⟨i, _, hqe⟩ := List.mem_map.mp hq
    rw [← hqe]
    exact probOf_nonneg piece t _ hnn
  have hub : ∀ q ∈ F.map (fun i => probOf piece t (s.set i piece)),
      q ≤ (bestFold ((F.map fun i => ((i : Nat) / 3, i % 3)).zip
        (F.map fun i => probOf piece t (s.set i piece))) 0 []).1 := by
    intro q hq
    obtain ⟨i, hi, hqe⟩ := List.mem_map.mp hq
    have hmem : ((i / 3, i % 3), probOf piece t (s.set i piece)) ∈
        F.map (fun i => ((i / 3, i % 3), probOf piece t (s.set i piece))) :=
      List.mem_map_of_mem _ hi
    rw [← hqe]
    have hb := bestFold_max_ub ((F.map fun i => ((i : Nat) / 3, i % 3)).zip
        (F.map fun i => probOf piece t (s.set i piece))) 0 []
        ((i / 3, i % 3), probOf piece t (s.set i piece)) (by rw [hzip]; exact hmem)
    simpa using hb
  have hMmem : (bestFold ((F.map fun i => ((i : Nat) / 3, i % 3)).zip
        (F.map fun i => probOf piece t (s.set i piece))) 0 []).1 ∈
      F.map (fun i => probOf piece t (s.set i piece)) := by
    rcases bestFold_max_mem ((F.map fun i => ((i : Nat) / 3, i % 3)).zip
        (F.map fun i => probOf piece t (s.set i piece))) 0 [] with h0 | ⟨mp, hmp, hMe⟩
    · have hne2 : F.map (fun i => probOf piece t (s.set i piece)) ≠ [] := by
        simpa using hFne
      have hq0 := List.head_mem hne2
      have h1 : 0 ≤ (F.map (fun i => probOf piece t (s.set i piece))).head hne2 :=
        hprobs_nonneg _ hq0
      have h2 := hub _ hq0
      rw [h0] at h2
      have h3 : (F.map (fun i => probOf piece t (s.set i piece))).head hne2 = 0 :=
        le_antisymm h2 h1
      rw [h0, ← h3]
      exact hq0
    · rw [hMe]
      exact (List.of_mem_zip hmp).2
  have hbne : (bestFold ((F.map fun i => ((i : Nat) / 3, i % 3)).zip
      (F.map fun i => probOf piece t (s.set i piece))) 0 []).2 ≠ [] := by
    obtain ⟨i0, F', hF'⟩ := List.exists_cons_of_ne_nil hFne
    rw [hzip, hF', List.map_cons]
    apply bestFold_ne_nil_start
    have : probOf piece t (s.set i0 piece) ∈
        F.map (fun i => probOf piece t (s.set i piece)) := by
      rw [hF', List.map_cons]
      exact List.mem_cons_self _ _
    simpa using hprobs_nonneg _ this
  have hget2 : tableGet (if tableContains t1 s then t1
      else tableInsert t1 s (findNewStateProb piece s)) s = some (probOf piece t s) := by
    rw [tableGet_lazyInsert_self, hts]
    rfl
  have hopt : makeOptimalMove piece lrate t s choiceIdx =
      (match tableGet (if tableContains t1 s then t1
          else tableInsert t1 s (findNewStateProb piece s)) s with
       | none => none
       | some oldProb =>
           if (bestFold ((F.map fun i => ((i : Nat) / 3, i % 3)).zip
                (F.map fun i => probOf piece t (s.set i piece))) 0 []).2.length = 1 then
             some ((bestFold ((F.map fun i => ((i : Nat) / 3, i % 3)).zip
                  (F.map fun i => probOf piece t (s.set i piece))) 0 []).2.getD 0 (0, 0),
               tableModify (if tableContains t1 s then t1
                   else tableInsert t1 s (findNewStateProb piece s)) s
                 (fun prob => prob + lrate * ((bestFold ((F.map fun i => ((i : Nat) / 3, i % 3)).zip
                    (F.map fun i => probOf piece t (s.set i piece))) 0 []).1 - oldProb)))
           else if (bestFold ((F.map fun i => ((i : Nat) / 3, i % 3)).zip
                (F.map fun i => probOf piece t (s.set i piece))) 0 []).2.length > 1 then
             some ((bestFold ((F.map fun i => ((i : Nat) / 3, i % 3)).zip
                  (F.map fun i => probOf piece t (s.set i piece))) 0 []).2.getD
                    (choiceIdx % (bestFold ((F.map fun i => ((i : Nat) / 3, i % 3)).zip
                      (F.map fun i => probOf piece t (s.set i piece))) 0 []).2.length) (0, 0),
               tableModify (if tableContains t1 s then t1
                   else tableInsert t1 s (findNewStateProb piece s)) s
                 (fun prob => prob + lrate * ((bestFold ((F.map fun i => ((i : Nat) / 3, i % 3)).zip
                    (F.map fun i => probOf piece t (s.set i piece))) 0 []).1 - oldProb)))
           else none) := by
    unfold makeOptimalMove
    rw [hgp]
  rw [hget2] at hopt
  have hopt2 : makeOptimalMove piece lrate t s choiceIdx =
      (if (bestFold ((F.map fun i => ((i : Nat) / 3, i % 3)).zip
            (F.map fun i => probOf piece t (s.set i piece))) 0 []).2.length = 1 then
         some ((bestFold ((F.map fun i => ((i : Nat) / 3, i % 3)).zip
              (F.map fun i => probOf piece t (s.set i piece))) 0 []).2.getD 0 (0, 0),
           tableModify (if tableContains t1 s then t1
               else tableInsert t1 s (findNewStateProb piece s)) s
             (fun prob => prob + lrate * ((bestFold ((F.map fun i => ((i : Nat) / 3, i % 3)).zip
                (F.map fun i => probOf piece t (s.set i piece))) 0 []).1 - probOf piece t s)))
       else if (bestFold ((F.map fun i => ((i : Nat) / 3, i % 3)).zip
            (F.map fun i => probOf piece t (s.set i piece))) 0 []).2.length > 1 then
         some ((bestFold ((F.map fun i => ((i : Nat) / 3, i % 3)).zip
              (F.map fun i => probOf piece t (s.set i piece))) 0 []).2.getD
                (choiceIdx % (bestFold ((F.map fun i => ((i : Nat) / 3, i % 3)).zip
                  (F.map fun i => probOf piece t (s.set i piece))) 0 []).2.length) (0, 0),
           tableModify (if tableContains t1 s then t1
               else tableInsert t1 s (findNewStateProb piece s)) s
             (fun prob => prob + lrate * ((bestFold ((F.map fun i => ((i : Nat) / 3, i % 3)).zip
                (F.map fun i => probOf piece t (s.set i piece))) 0 []).1 - probOf piece t s)))
       else none) := hopt
  have hmod : tableGet (tableModify (if tableContains t1 s then t1
      else tableInsert t1 s (findNewStateProb piece s)) s
      (fun prob => prob + lrate * ((bestFold ((F.map fun i => ((i : Nat) / 3, i % 3)).zip
        (F.map fun i => probOf piece t (s.set i piece))) 0 []).1 - probOf piece t s))) s =
      some (probOf piece t s + lrate * ((bestFold ((F.map fun i => ((i : Nat) / 3, i % 3)).zip
        (F.map fun i => probOf piece t (s.set i piece))) 0 []).1 - probOf piece t s)) := by
    rw [tableGet_modify_self _ s _ (probOf piece t s) hget2]
  refine ⟨F.map (fun i => (i / 3, i % 3)), F.map (fun i => probOf piece t (s.set i piece)),
    t1, ?_⟩
  by_cases hlen : (bestFold ((F.map fun i => ((i : Nat) / 3, i % 3)).zip
      (F.map fun i => probOf piece t (s.set i piece))) 0 []).2.length = 1
  · rw [if_pos hlen] at hopt2
    exact ⟨_, hgp, hopt2, hMmem, hub, hmod⟩
  · have hgt : (bestFold ((F.map fun i => ((i : Nat) / 3, i % 3)).zip
        (F.map fun i => probOf piece t (s.set i piece))) 0 []).2.length > 1 := by
      have hpos : 0 < (bestFold ((F.map fun i => ((i : Nat) / 3, i % 3)).zip
          (F.map fun i => probOf piece t (s.set i piece))) 0 []).2.length :=
        List.length_pos.mpr hbne
      omega
    rw [if_neg hlen, if_pos hgt] at hopt2
    exact ⟨_, hgp, hopt2, hMmem, hub, hmod⟩

theorem makeRandomMove_eq (piece : Piece) (t : Table) (s : GState) (choiceIdx : Nat)
    (hp : piece ≠ Piece.Empty) (hs : Piece.Empty ∈ s) :
    ∃ moves probs t1,
      getPotentialMoves piece t s = some (moves, probs, t1) ∧
      tableGet t1 s = tableGet t s ∧
      moves ≠ [] ∧
      probs ≠ [] ∧
      (∀ q ∈ probs, ∃ k, q = probOf piece t k) ∧
      ((moves.zip probs).filterMap
          (fun mp => if mp.2 < maxFold probs 0 then some mp.1 else none) = [] →
        makeRandomMove piece t s choiceIdx =
          some (moves.getD (choiceIdx % moves.length) (0, 0), t1)) ∧
      ((moves.zip probs).filterMap
          (fun mp => if mp.2 < maxFold probs 0 then some mp.1 else none) ≠ [] →
        makeRandomMove piece t s choiceIdx =
          some (((moves.zip probs).filterMap
              (fun mp => if mp.2 < maxFold probs 0 then some mp.1 else none)).getD
            (choiceIdx % ((moves.zip probs).filterMap
              (fun mp => if mp.2 < maxFold probs 0 then some mp.1 else none)).length)
            (0, 0), t1)) := by
  obtain ⟨t1, hgp, hts⟩ := getPotentialMoves_full piece t s hp
  set F := (List.range s.length).filter (fun i => cell s i = Piece.Empty) with hF
  have hFne : F ≠ [] := emptyCells_ne_nil s hs
  have hmne : F.map (fun i => ((i : Nat) / 3, i % 3)) ≠ [] := by simpa using hFne
  have hpne : F.map (fun i => probOf piece t (s.set i piece)) ≠ [] := by simpa using hFne
  have hpform : ∀ q ∈ F.map (fun i => probOf piece t (s.set i piece)),
      ∃ k, q = probOf piece t k := by
    intro q hq
    obtain ⟨i, _, hqe⟩ := List.mem_map.mp hq
    exact ⟨s.set i piece, hqe.symm⟩
  refine ⟨F.map (fun i => ((i : Nat) / 3, i % 3)),
    F.map (fun i => probOf piece t (s.set i piece)), t1, hgp, hts, hmne, hpne, hpform,
    ?_, ?_⟩
  all_goals
    have hrand : makeRandomMove piece t s choiceIdx =
        (if (((F.map fun i => ((i : Nat) / 3, i % 3)).zip
              (F.map fun i => probOf piece t (s.set i piece))).filterMap
            (fun mp => if mp.2 < maxFold (F.map fun i => probOf piece t (s.set i piece)) 0
              then some mp.1 else none)).length = 0 then
          (if (F.map fun i => ((i : Nat) / 3, i % 3)).length = 0 then none
           else some ((F.map fun i => ((i : Nat) / 3, i % 3)).getD
             (choiceIdx % (F.map fun i => ((i : Nat) / 3, i % 3)).length) (0, 0), t1))
         else some ((((F.map fun i => ((i : Nat) / 3, i % 3)).zip
              (F.map fun i => probOf piece t (s.set i piece))).filterMap
            (fun mp => if mp.2 < maxFold (F.map fun i => probOf piece t (s.set i piece)) 0
              then some mp.1 else none)).getD
            (choiceIdx % (((F.map fun i => ((i : Nat) / 3, i % 3)).zip
              (F.map fun i => probOf piece t (s.set i piece))).filterMap
            (fun mp => if mp.2 < maxFold (F.map fun i => probOf piece t (s.set i piece)) 0
              then some mp.1 else none)).length) (0, 0), t1)) := by
      unfold makeRandomMove
      rw [hgp]
  · intro hpool
    rw [hrand, if_pos (by rw [hpool]; rfl), if_neg (by simpa using hmne)]
  · intro hpool
    rw [hrand, if_neg ?_]
    intro hlen
    exact hpool (List.length_eq_zero.mp hlen)

/-- C2: when `make_move` takes the greedy path, the stored value of the
current state afterwards equals `old_value + lr * (v_max - old_value)`,
where `old_value` is the table value of the current state just before the
update (the lazily inserted default if absent, `probOf`), `v_max` is the
maximum value over the enumerated candidate successor states (the
`bestFold` maximum, shown to be a member of and an upper bound of the
candidate values), and `lr` is the learning annealing function applied to
the initial learning rate and iteration; `lr = 0` leaves the value
unchanged and `lr = 1` sets it exactly to `v_max`. On the exploratory path
the entry of the current state is untouched and never created. Hypotheses:
the piece is a real side, the board has an empty cell, and the stored
values are non-negative (the table invariant of the spec data model). -/
theorem c2_td_update_law (p : PlayerM) (s : GState) (randVal : ℚ) (choiceIdx : Nat)
    (hp : p.piece ≠ Piece.Empty) (hs : Piece.Empty ∈ s)
    (hnn : ∀ k v, tableGet p.stateSpace k = some v → 0 ≤ v) :
    (¬ randVal < p.explorationFn p.initialExplorationRate p.iteration →
      ∃ moves probs t1 mv p2,
        getPotentialMoves p.piece p.stateSpace s = some (moves, probs, t1) ∧
        makeMove p s randVal choiceIdx = some (mv, p2) ∧
        (bestFold (moves.zip probs) 0 []).1 ∈ probs ∧
        (∀ q ∈ probs, q ≤ (bestFold (moves.zip probs) 0 []).1) ∧
        tableGet p2.stateSpace s = some (probOf p.piece p.stateSpace s +
          p.learningFn p.initialLearningRate p.iteration *
            ((bestFold (moves.zip probs) 0 []).1 - probOf p.piece p.stateSpace s)) ∧
        (p.learningFn p.initialLearningRate p.iteration = 0 →
          tableGet p2.stateSpace s = some (probOf p.piece p.stateSpace s)) ∧
        (p.learningFn p.initialLearningRate p.iteration = 1 →
          tableGet p2.stateSpace s = some ((bestFold (moves.zip probs) 0 []).1))) ∧
    (randVal < p.explorationFn p.initialExplorationRate p.iteration →
      ∃ mv p2, makeMove p s randVal choiceIdx = some (mv, p2) ∧
        tableGet p2.stateSpace s = tableGet p.stateSpace s) := by
  constructor
  · intro hgreedy
    obtain ⟨moves, probs, t1, r, hgp, hmo, hmem, hub, hval⟩ :=
      makeOptimalMove_eq p.piece (p.learningFn p.initialLearningRate p.iteration)
        p.stateSpace s choiceIdx hp hs hnn
    obtain ⟨mv, t3⟩ := r
    have hmm : makeMove p s randVal choiceIdx = some (mv, { p with stateSpace := t3 }) := by
      unfold makeMove
      dsimp only
      rw [if_neg hgreedy, hmo]
    refine ⟨moves, probs, t1, mv, { p with stateSpace := t3 }, hgp, hmm, hmem, hub,
      hval, ?_, ?_⟩
    · intro h0
      rw [hval, h0]
      norm_num
    · intro h1
      rw [hval, h1]
      congr 1
      ring
  · intro hexp
    obtain ⟨moves, probs, t1, hgp, hts, hmne, hpne, hpform, hpool0, hpool1⟩ :=
      makeRandomMove_eq p.piece p.stateSpace s choiceIdx hp hs
    by_cases hpool : (moves.zip probs).filterMap
        (fun mp => if mp.2 < maxFold probs 0 then some mp.1 else none) = []
    · have hrand := hpool0 hpool
      have hmm : makeMove p s randVal choiceIdx = some
          (moves.getD (choiceIdx % moves.length) (0, 0), { p with stateSpace := t1 }) := by
        unfold makeMove
        dsimp only
        rw [if_pos hexp, hrand]
      exact ⟨_, _, hmm, hts⟩
    · have hrand := hpool1 hpool
      have hmm : makeMove p s randVal choiceIdx = some
          (((moves.zip probs).filterMap
              (fun mp => if mp.2 < maxFold probs 0 then some mp.1 else none)).getD
            (choiceIdx % ((moves.zip probs).filterMap
              (fun mp => if mp.2 < maxFold probs 0 then some mp.1 else none)).length)
            (0, 0), { p with stateSpace := t1 }) := by
        unfold makeMove
        dsimp only
        rw [if_pos hexp, hrand]
      exact ⟨_, _, hmm, hts⟩

theorem maxFold_zero_mem (l : List ℚ) (hne : l ≠ []) (hnn : ∀ q ∈ l, 0 ≤ q) :
    maxFold l 0 ∈ l := by
  rcases maxFold_mem l 0 with h0 | h
  · have hh := List.head_mem hne
    have h1 : 0 ≤ l.head hne := hnn _ hh
    have h2 : l.head hne ≤ maxFold l 0 := maxFold_ub l 0 _ hh
    rw [h0] at h2
    have h3 : l.head hne = 0 := le_antisymm h2 h1
    rw [h0, ← h3]
    exact hh
  · exact h

/-- C5: on the exploratory path of `make_move` (random draw strictly below
the annealed exploration rate), the returned move is the oracle choice
from the pool of candidate moves whose evaluated value is strictly below
the maximum candidate value (`maxFold probs 0` is shown to be the maximum:
a member of and an upper bound of the candidate values); when that pool is
empty (all candidates tied at the maximum) the choice is from all
candidate moves instead. With a uniform `choose` oracle the choice is
uniform over the respective pool. Hypotheses: real side piece, an empty
cell exists, stored values non-negative. -/
theorem c5_exploratory_pool (p : PlayerM) (s : GState) (randVal : ℚ) (choiceIdx : Nat)
    (hp : p.piece ≠ Piece.Empty) (hs : Piece.Empty ∈ s)
    (hexp : randVal < p.explorationFn p.initialExplorationRate p.iteration)
    (hnn : ∀ k v, tableGet p.stateSpace k = some v → 0 ≤ v) :
    ∃ moves probs t1,
      getPotentialMoves p.piece p.stateSpace s = some (moves, probs, t1) ∧
      maxFold probs 0 ∈ probs ∧
      (∀ q ∈ probs, q ≤ maxFold probs 0) ∧
      ((moves.zip probs).filterMap
          (fun mp => if mp.2 < maxFold probs 0 then some mp.1 else none) ≠ [] →
        makeMove p s randVal choiceIdx = some
          (((moves.zip probs).filterMap
              (fun mp => if mp.2 < maxFold probs 0 then some mp.1 else none)).getD
            (choiceIdx % ((moves.zip probs).filterMap
              (fun mp => if mp.2 < maxFold probs 0 then some mp.1 else none)).length)
            (0, 0), { p with stateSpace := t1 })) ∧
      ((moves.zip probs).filterMap
          (fun mp => if mp.2 < maxFold probs 0 then some mp.1 else none) = [] →
        makeMove p s randVal choiceIdx = some
          (moves.getD (choiceIdx % moves.length) (0, 0), { p with stateSpace := t1 })) := by
  obtain ⟨moves, probs, t1, hgp, hts, hmne, hpne, hpform, hpool0, hpool1⟩ :=
    makeRandomMove_eq p.piece p.stateSpace s choiceIdx hp hs
  have hprobs_nonneg : ∀ q ∈ probs, 0 ≤ q := by
    intro q hq
    obtain ⟨k, hk⟩ := hpform q hq
    rw [hk]
    exact probOf_nonneg p.piece p.stateSpace k hnn
  refine ⟨moves, probs, t1, hgp, maxFold_zero_mem probs hpne hprobs_nonneg,
    maxFold_ub probs 0, ?_, ?_⟩
  · intro hpool
    have hrand := hpool1 hpool
    unfold makeMove
    dsimp only
    rw [if_pos hexp, hrand]
  · intro hpool
    have hrand := hpool0 hpool
    unfold makeMove
    dsimp only
    rw [if_pos hexp, hrand]

/-- C10: `get_potential_moves` produces exactly one candidate per empty
cell of the state: for the empty cell at compact index `i` it yields the
move `[i / 3, i % 3]` (so every returned move targets an empty cell of the
input state) paired with the table value of the state obtained by placing
the own piece at that cell, with the default lazily inserted when absent
(`probOf` against the table as it was before the call); and the row-major
encoding matches `Board::get_compact_state`, which satisfies
`compact_state[3 * row + col] = squares[row][col]`. -/
theorem c10_potential_moves (piece : Piece) (t : Table) (s : GState) (b : BoardG)
    (hp : piece ≠ Piece.Empty) (h9 : s.length = 9) :
    (∃ t1, getPotentialMoves piece t s = some
        (((List.range 9).filter (fun i => cell s i = Piece.Empty)).map
            (fun i => ((i : Nat) / 3, i % 3)),
         ((List.range 9).filter (fun i => cell s i = Piece.Empty)).map
            (fun i => probOf piece t (s.set i piece)), t1)) ∧
      (∀ mv ∈ ((List.range 9).filter (fun i => cell s i = Piece.Empty)).map
          (fun i => ((i : Nat) / 3, i % 3)), cell s (3 * mv.1 + mv.2) = Piece.Empty) ∧
      (∀ row col : Nat, row < 3 → col < 3 →
        cell (getCompactState b) (3 * row + col) = b.squares row col) := by
  obtain ⟨t1, hgp⟩ := getPotentialMoves_char piece t s hp
  rw [h9] at hgp
  refine ⟨⟨t1, hgp⟩, ?_, ?_⟩
  · intro mv hmv
    obtain ⟨i, hi, hmve⟩ := List.mem_map.mp hmv
    subst hmve
    have hcell : cell s i = Piece.Empty := by simpa using (List.mem_filter.mp hi).2
    have hidx : 3 * (i / 3) + i % 3 = i := by omega
    simpa [hidx] using hcell
  · intro row col hr hc
    interval_cases row <;> interval_cases col <;> rfl

/-- C1 (code bug): `Player::check_winner` does not always return the piece
occupying the winning line. On `c1Board` the anti-diagonal cells 2, 4, 6
all hold O and X has no full row, column or diagonal, yet `check_winner`
returns `Some(X)` because the anti-diagonal branch of `check_winner_diag`
returns `compact_state[3 * 0 + 0]`, the top-left cell, instead of a cell
of the winning line. The claim requires `Some(O)` here. -/
theorem c1_check_winner_wrong_piece :
    checkWinner c1Board = some Piece.X ∧
    cell c1Board 2 = Piece.O ∧ cell c1Board 4 = Piece.O ∧ cell c1Board 6 = Piece.O ∧
    cell c1Board 0 = Piece.X ∧
    checkWinnerRow c1Board = none ∧ checkWinnerCol c1Board = none ∧
    Piece.X ≠ Piece.O := by
  decide

/-- C3 (code bug): `find_new_state_prob` does not return 1.0 for every
unseen state in which the owning side has three in a row. On `c3Board`
the owning side O holds the full anti-diagonal (cells 2, 4, 6), yet the
computed default is 0 rather than 1, because the buggy anti-diagonal
branch of `check_winner_diag` reports `compact_state[0]` (here `Empty`)
as the winner, which differs from O. -/
theorem c3_default_value_wrong_for_anti_diagonal_win :
    findNewStateProb Piece.O c3Board = 0 ∧
    cell c3Board 2 = Piece.O ∧ cell c3Board 4 = Piece.O ∧ cell c3Board 6 = Piece.O ∧
    checkWinner c3Board = some Piece.Empty ∧
    (0 : ℚ) ≠ 1 := by
  constructor
  · rfl
  · refine ⟨rfl, rfl, rfl, rfl, by norm_num⟩

/-- C9: the default annealing schedules are step decay
`initial * 0.9 ^ (iteration / step)` with step 20 for the learning rate
and step 10 for the exploration rate; every initial rate is returned
unchanged at iteration 0, and for a non-negative initial rate both
schedules are non-increasing in the iteration. -/
theorem c9_step_decay_annealing (r : ℚ) (it it2 : Nat) :
    learning_rate_function r it = r * (9 / 10) ^ (it / 20) ∧
    exploration_rate_function r it = r * (9 / 10) ^ (it / 10) ∧
    learning_rate_function r 0 = r ∧
    exploration_rate_function r 0 = r ∧
    (0 ≤ r → it ≤ it2 →
      learning_rate_function r it2 ≤ learning_rate_function r it ∧
      exploration_rate_function r it2 ≤ exploration_rate_function r it) := by
  have hpow : ∀ n : Nat, ratPowi (9 / 10) (Int.ofNat n) = (9 / 10 : ℚ) ^ n := by
    intro n
    unfold ratPowi
    simp [Int.ofNat_nonneg n]
  refine ⟨?_, ?_, ?_, ?_, ?_⟩
  · unfold learning_rate_function; rw [hpow]
  · unfold exploration_rate_function; rw [hpow]
  · unfold learning_rate_function; rw [hpow]; norm_num
  · unfold exploration_rate_function; rw [hpow]; norm_num
  · intro hr hle
    constructor
    · unfold learning_rate_function
      rw [hpow, hpow]
      refine mul_le_mul_of_nonneg_left ?_ hr
      exact pow_le_pow_of_le_one (by norm_num) (by norm_num) (Nat.div_le_div_right hle)
    · unfold exploration_rate_function
      rw [hpow, hpow]
      refine mul_le_mul_of_nonneg_left ?_ hr
      exact pow_le_pow_of_le_one (by norm_num) (by norm_num) (Nat.div_le_div_right hle)

/-- Witness for C9 at the repository default initial learning rate 0.75,
iterations 0 and 25. -/
theorem c9_step_decay_annealing_witness :
    (0 : ℚ) ≤ 3 / 4 ∧ (0 : Nat) ≤ 25 ∧
    (learning_rate_function (3 / 4) 25 ≤ learning_rate_function (3 / 4) 0 ∧
      exploration_rate_function (3 / 4) 25 ≤ exploration_rate_function (3 / 4) 0) :=
  ⟨by norm_num, by norm_num,
    (c9_step_decay_annealing (3 / 4) 0 25).2.2.2.2 (by norm_num) (by norm_num)⟩

/-- C7: `Trainer::train` called with two players assigned the same piece
returns the `InvalidPlayers` error before any episode runs: for every
iteration count and oracle, the result is exactly the error together with
both players unchanged (no table entry, iteration change or save file). -/
theorem c7_train_invalid_players (p1 p2 : PlayerM) (iterations : Nat)
    (outDirectory : String) (oracle : List (ℚ × Nat)) (h : p1.piece = p2.piece) :
    train p1 p2 iterations outDirectory oracle =
      some (Except.error TrainerError.InvalidPlayers, p1, p2) := by
  unfold train
  rw [if_pos h]

/-- Witness for C7: two fresh X players and 1000 requested episodes. -/
theorem c7_train_invalid_players_witness :
    c7PlayerA.piece = c7PlayerB.piece ∧
    train c7PlayerA c7PlayerB 1000 "out/" [] =
      some (Except.error TrainerError.InvalidPlayers, c7PlayerA, c7PlayerB) :=
  ⟨rfl, c7_train_invalid_players c7PlayerA c7PlayerB 1000 "out/" [] rfl⟩

theorem ratFactHalfGtZero : ((1 : ℚ) / 2 > 0) = True := eq_true (by norm_num)

theorem ratFactHalfGtHalf : ((1 : ℚ) / 2 > 1 / 2) = False := eq_false (by norm_num)

theorem ratFactOneGtHalf : ((1 : ℚ) > 1 / 2) = True := eq_true (by norm_num)

theorem ratFactHalfGtOne : ((1 : ℚ) / 2 > 1) = False := eq_false (by norm_num)

theorem ratFactHalfEqHalf : ((1 : ℚ) / 2 = 1 / 2) = True := eq_true (by norm_num)

theorem ratFactHalfEqOne : ((1 : ℚ) / 2 = 1) = False := eq_false (by norm_num)

theorem ratFactOneEqHalf : ((1 : ℚ) = 1 / 2) = False := eq_false (by norm_num)

theorem ratFactHalfLtZero : ((1 : ℚ) / 2 < 0) = False := eq_false (by norm_num)

theorem ratFactOneGtZero : ((1 : ℚ) > 0) = True := eq_true (by norm_num)

theorem pieceEqSimp1 : (Piece.X = Piece.Empty) = False := eq_false (by decide)

theorem pieceEqSimp2 : (Piece.O = Piece.Empty) = False := eq_false (by decide)

theorem pieceEqSimp3 : (Piece.Empty = Piece.X) = False := eq_false (by decide)

theorem pieceEqSimp4 : (Piece.Empty = Piece.O) = False := eq_false (by decide)

theorem pieceEqSimp5 : (Piece.X = Piece.O) = False := eq_false (by decide)

theorem pieceEqSimp6 : (Piece.O = Piece.X) = False := eq_false (by decide)

theorem pieceEqSimp7 : (Piece.Empty = Piece.Empty) = True := eq_true rfl

theorem pieceEqSimp8 : (Piece.X = Piece.X) = True := eq_true rfl

theorem pieceEqSimp9 : (Piece.O = Piece.O) = True := eq_true rfl

theorem c6_board1_eq : makeAutoPlayerMove emptyBoard 0 0 Piece.X = c6Board1 := rfl

theorem c6_board2_eq : makeAutoPlayerMove c6Board1 0 1 Piece.O = c6Board2 := rfl

theorem c6_board3_eq : makeAutoPlayerMove c6Board2 1 0 Piece.X = c6Board3 := rfl

theorem c6_board4_eq : makeAutoPlayerMove c6Board3 0 2 Piece.O = c6Board4 := rfl

theorem c6_board5_eq : makeAutoPlayerMove c6Board4 2 0 Piece.X = c6Board5 := rfl

theorem c6_winner1 : boardCheckWinner c6Board1 = none := rfl

theorem c6_winner2 : boardCheckWinner c6Board2 = none := rfl

theorem c6_winner3 : boardCheckWinner c6Board3 = none := rfl

theorem c6_winner4 : boardCheckWinner c6Board4 = none := rfl

theorem c6_winner5 : boardCheckWinner c6Board5 = some Piece.X := rfl

theorem c6_full1 : boardIsFull c6Board1 = false := rfl

theorem c6_full2 : boardIsFull c6Board2 = false := rfl

theorem c6_full3 : boardIsFull c6Board3 = false := rfl

theorem c6_full4 : boardIsFull c6Board4 = false := rfl

theorem c6_compact0 : getCompactState emptyBoard = c6SE := rfl

theorem c6_compact1 : getCompactState c6Board1 = c6S1 := rfl

theorem c6_compact2 : getCompactState c6Board2 = c6S2 := rfl

theorem c6_compact3 : getCompactState c6Board3 = c6S3 := rfl

theorem c6_compact4 : getCompactState c6Board4 = c6Prior := rfl

theorem c6_compact5 : getCompactState c6Board5 = c6Terminal := rfl

theorem c6_replicate : List.replicate 9 Piece.Empty = c6SE := rfl

theorem c6_px1_piece : c6PX1.piece = Piece.X := rfl

theorem c6_px2_piece : c6PX2.piece = Piece.X := rfl

theorem c6_po1_piece (lr : ℚ) : (c6PO1 lr).piece = Piece.O := rfl

theorem c6_po2_piece (lr : ℚ) : (c6PO2 lr).piece = Piece.O := rfl

theorem c6_px3_piece : c6PX3.piece = Piece.X := rfl

theorem boolFalseTrue : ((false = true)) = False := by simp

theorem c6_notlt : ¬ ((1 / 2 : ℚ) < 0) := by norm_num

theorem c6_gp1 : getPotentialMoves Piece.X [] c6SE = some (c6M1, c6P1, c6TphaseX1) := rfl

theorem c6_bf1 : bestFold (c6M1.zip c6P1) 0 [] = (1 / 2, c6M1) := by
  norm_num [bestFold, c6M1, c6P1, List.zip, List.zipWith]

theorem c6_x1 : makeMove (updateIteration c6PlayerX 0) c6SE (1 / 2) 0 =
    some ((0, 0), c6PX1) := by
  unfold makeMove
  dsimp only [updateIteration, c6PlayerX]
  rw [if_neg c6_notlt]
  unfold makeOptimalMove
  rw [c6_gp1]
  dsimp only
  rw [c6_bf1]
  rfl

theorem c6_gp2 : getPotentialMoves Piece.O [] c6S1 = some (c6M2, c6P2, c6TphaseO1) := rfl

theorem c6_bf2 : bestFold (c6M2.zip c6P2) 0 [] = (1 / 2, c6M2) := by
  norm_num [bestFold, c6M2, c6P2, List.zip, List.zipWith]

theorem c6_o1 (lr : ℚ) : makeMove (updateIteration (c6PlayerO lr) 0) c6S1 (1 / 2) 0 =
    some ((0, 1), c6PO1 lr) := by
  unfold makeMove
  dsimp only [updateIteration, c6PlayerO]
  rw [if_neg c6_notlt]
  unfold makeOptimalMove
  rw [c6_gp2]
  dsimp only
  rw [c6_bf2]
  rfl

theorem c6_gp3 : getPotentialMoves Piece.X c6TX1 c6S2 = some (c6M3, c6P3, c6TphaseX2) := rfl

theorem c6_bf3 : bestFold (c6M3.zip c6P3) 0 [] = (1 / 2, c6M3) := by
  norm_num [bestFold, c6M3, c6P3, List.zip, List.zipWith]

theorem c6_x2 : makeMove c6PX1 c6S2 (1 / 2) 1 = some ((1, 0), c6PX2) := by
  unfold makeMove
  dsimp only [c6PX1]
  rw [if_neg c6_notlt]
  unfold makeOptimalMove
  rw [c6_gp3]
  dsimp only
  rw [c6_bf3]
  rfl

set_option maxHeartbeats 1600000 in
theorem c6_gp4 (lr : ℚ) : getPotentialMoves Piece.O (c6TO1 lr) c6S3 =
    some (c6M4, c6P4, c6TphaseO2 lr) := rfl

theorem c6_bf4 : bestFold (c6M4.zip c6P4) 0 [] = (1 / 2, c6M4) := by
  norm_num [bestFold, c6M4, c6P4, List.zip, List.zipWith]

theorem c6_o2 (lr : ℚ) : makeMove (c6PO1 lr) c6S3 (1 / 2) 0 =
    some ((0, 2), c6PO2 lr) := by
  unfold makeMove
  dsimp only [c6PO1]
  rw [if_neg c6_notlt]
  unfold makeOptimalMove
  rw [c6_gp4]
  dsimp only
  rw [c6_bf4]
  rfl

set_option maxHeartbeats 1600000 in
theorem c6_gp5 : getPotentialMoves Piece.X c6TX2 c6Prior =
    some (c6M5, c6P5, c6TphaseX3) := rfl

theorem c6_bf5 : bestFold (c6M5.zip c6P5) 0 [] = (1, [(2, 0)]) := by
  norm_num [bestFold, c6M5, c6P5, List.zip, List.zipWith]

theorem c6_x3 : makeMove c6PX2 c6Prior (1 / 2) 0 = some ((2, 0), c6PX3) := by
  unfold makeMove
  dsimp only [c6PX2]
  rw [if_neg c6_notlt]
  unfold makeOptimalMove
  rw [c6_gp5]
  dsimp only
  rw [c6_bf5]
  rfl

theorem c6_final (lr : ℚ) :
    tableGet (showLoosingState (c6PO2 lr) c6Prior c6Terminal).stateSpace c6Prior =
      some (1 / 2 + lr * (0 - 1 / 2)) := rfl

theorem episodeLoop_step (fuel : Nat) (p1 p2 p1a p2a : PlayerM) (board b1 b2 : BoardG)
    (pb1 pb2 s0 s1c s2c : GState) (oracle rest1 rest2 : List (ℚ × Nat))
    (o1v o2v : ℚ) (o1i o2i : Nat) (mv1 mv2 : Nat × Nat)
    (ho1 : nextOracle oracle = ((o1v, o1i), rest1))
    (hc0 : getCompactState board = s0)
    (hm1 : makeMove p1 s0 o1v o1i = some (mv1, p1a))
    (hb1 : makeAutoPlayerMove board mv1.1 mv1.2 p1a.piece = b1)
    (hw1 : boardCheckWinner b1 = none)
    (hf1 : boardIsFull b1 = false)
    (hc1 : getCompactState b1 = s1c)
    (ho2 : nextOracle rest1 = ((o2v, o2i), rest2))
    (hm2 : makeMove p2 s1c o2v o2i = some (mv2, p2a))
    (hb2 : makeAutoPlayerMove b1 mv2.1 mv2.2 p2a.piece = b2)
    (hw2 : boardCheckWinner b2 = none)
    (hf2 : boardIsFull b2 = false)
    (hc2 : getCompactState b2 = s2c) :
    episodeLoop (fuel + 1) p1 p2 board pb1 pb2 oracle =
      episodeLoop fuel p1a p2a b2 s1c s2c rest2 := by
  rw [episodeLoop, ho1]
  dsimp only
  rw [hc0, hm1]
  dsimp only
  rw [hb1, hw1, hf1, hc1, ho2]
  dsimp only
  rw [hm2]
  dsimp only
  rw [hb2, hw2, hf2, hc2]
  simp only [Option.isSome, boolFalseTrue, reduceIte]

theorem episodeLoop_firstWins (fuel : Nat) (p1 p2 p1a : PlayerM) (board b1 : BoardG)
    (pb1 pb2 s0 sterm : GState) (oracle rest1 : List (ℚ × Nat))
    (o1v : ℚ) (o1i : Nat) (mv1 : Nat × Nat) (w : Piece)
    (ho1 : nextOracle oracle = ((o1v, o1i), rest1))
    (hc0 : getCompactState board = s0)
    (hm1 : makeMove p1 s0 o1v o1i = some (mv1, p1a))
    (hb1 : makeAutoPlayerMove board mv1.1 mv1.2 p1a.piece = b1)
    (hw1 : boardCheckWinner b1 = some w)
    (hct : getCompactState b1 = sterm) :
    episodeLoop (fuel + 1) p1 p2 board pb1 pb2 oracle =
      some (p1a, showLoosingState p2 pb2 sterm, b1, rest1) := by
  rw [episodeLoop, ho1]
  dsimp only
  rw [hc0, hm1]
  dsimp only
  rw [hb1, hw1, hct]
  simp only [Option.isSome, eq_self_iff_true, reduceIte]

theorem c6_pass1 (lr : ℚ) :
    episodeLoop 9 (updateIteration c6PlayerX 0) (updateIteration (c6PlayerO lr) 0)
      emptyBoard c6SE c6SE c6Oracle =
    episodeLoop 8 c6PX1 (c6PO1 lr) c6Board2 c6S1 c6S2
      [(1 / 2, 1), (1 / 2, 0), (1 / 2, 0)] :=
  episodeLoop_step 8 (updateIteration c6PlayerX 0) (updateIteration (c6PlayerO lr) 0)
    c6PX1 (c6PO1 lr) emptyBoard c6Board1 c6Board2 c6SE c6SE c6SE c6S1 c6S2
    c6Oracle [(1 / 2, 0), (1 / 2, 1), (1 / 2, 0), (1 / 2, 0)]
    [(1 / 2, 1), (1 / 2, 0), (1 / 2, 0)]
    (1 / 2) (1 / 2) 0 0 (0, 0) (0, 1)
    rfl c6_compact0 c6_x1 (c6_px1_piece ▸ c6_board1_eq) c6_winner1 c6_full1 c6_compact1
    rfl (c6_o1 lr) (c6_po1_piece lr ▸ c6_board2_eq) c6_winner2 c6_full2 c6_compact2

theorem c6_pass2 (lr : ℚ) :
    episodeLoop 8 c6PX1 (c6PO1 lr) c6Board2 c6S1 c6S2
      [(1 / 2, 1), (1 / 2, 0), (1 / 2, 0)] =
    episodeLoop 7 c6PX2 (c6PO2 lr) c6Board4 c6S3 c6Prior [(1 / 2, 0)] :=
  episodeLoop_step 7 c6PX1 (c6PO1 lr) c6PX2 (c6PO2 lr) c6Board2 c6Board3 c6Board4
    c6S1 c6S2 c6S2 c6S3 c6Prior
    [(1 / 2, 1), (1 / 2, 0), (1 / 2, 0)] [(1 / 2, 0), (1 / 2, 0)] [(1 / 2, 0)]
    (1 / 2) (1 / 2) 1 0 (1, 0) (0, 2)
    rfl c6_compact2 c6_x2 (c6_px2_piece ▸ c6_board3_eq) c6_winner3 c6_full3 c6_compact3
    rfl (c6_o2 lr) (c6_po2_piece lr ▸ c6_board4_eq) c6_winner4 c6_full4 c6_compact4

theorem c6_pass3 (lr : ℚ) :
    episodeLoop 7 c6PX2 (c6PO2 lr) c6Board4 c6S3 c6Prior [(1 / 2, 0)] =
    some (c6PX3, showLoosingState (c6PO2 lr) c6Prior c6Terminal, c6Board5, []) :=
  episodeLoop_firstWins 6 c6PX2 (c6PO2 lr) c6PX3 c6Board4 c6Board5 c6S3 c6Prior
    c6Prior c6Terminal [(1 / 2, 0)] [] (1 / 2) 0 (2, 0) Piece.X
    rfl c6_compact4 c6_x3 (c6_px3_piece ▸ c6_board5_eq) c6_winner5 c6_compact5

theorem c6_train_episodes (lr : ℚ) :
    trainEpisodes 1 0 c6PlayerX (c6PlayerO lr) c6Oracle =
      some (c6PX3, showLoosingState (c6PO2 lr) c6Prior c6Terminal, []) := by
  rw [trainEpisodes, c6_replicate, c6_pass1, c6_pass2, c6_pass3]
  rfl

theorem c6_piece_ne (lr : ℚ) : ¬ (c6PlayerX.piece = (c6PlayerO lr).piece) := by
  simp [c6PlayerX, c6PlayerO, pieceEqSimp5]

/-- C6 (the updating method is modelled from the spec:
`Player::show_loosing_state` is called by the trainer and the interactive
loop but is absent from the provided sources): after one trained episode
in which X wins by column 0 in three forced moves, `show_loosing_state`
performs an evaluate plus TD update of O's recorded prior state toward the
value of the terminal state actually reached (which evaluates to 0 for O),
leaving O's stored value for the board recorded right after its own
previous move at `1/2 + lr * (0 - 1/2)`, strictly below 1/2 whenever the
current learning rate `lr` is strictly positive. -/
theorem c6_loss_update_below_half (lr : ℚ) (hlr : 0 < lr) :
    (train c6PlayerX (c6PlayerO lr) 1 "" c6Oracle).map
        (fun r => (r.1, tableGet r.2.2.stateSpace c6Prior)) =
      some (Except.ok ("player_x_save.ttr", "player_o_save.ttr"),
        some (1 / 2 + lr * (0 - 1 / 2))) ∧
    1 / 2 + lr * (0 - 1 / 2) < (1 : ℚ) / 2 := by
  constructor
  · have htr : train c6PlayerX (c6PlayerO lr) 1 "" c6Oracle =
        some (Except.ok ("player_x_save.ttr", "player_o_save.ttr"), c6PX3,
          showLoosingState (c6PO2 lr) c6Prior c6Terminal) := by
      unfold train
      rw [if_neg (c6_piece_ne lr), c6_train_episodes]
      rfl
    rw [htr]
    simp only [Option.map]
    rw [c6_final]
  · have h : 1 / 2 + lr * (0 - 1 / 2) = 1 / 2 - lr / 2 := by ring
    rw [h]
    linarith

/-- Witness for C6 at learning rate 1/2. -/
theorem c6_loss_update_below_half_witness :
    (0 : ℚ) < 1 / 2 ∧
    ((train c6PlayerX (c6PlayerO (1 / 2)) 1 "" c6Oracle).map
        (fun r => (r.1, tableGet r.2.2.stateSpace c6Prior)) =
      some (Except.ok ("player_x_save.ttr", "player_o_save.ttr"),
        some (1 / 2 + (1 / 2 : ℚ) * (0 - 1 / 2))) ∧
      1 / 2 + (1 / 2 : ℚ) * (0 - 1 / 2) < (1 : ℚ) / 2) :=
  ⟨by norm_num, c6_loss_update_below_half (1 / 2) (by norm_num)⟩

/-- Witness for C2: the never-exploring fresh X player on the two-move
position, random draw 1 and choice index 0. -/
theorem c2_td_update_law_witness :
    (c2WPlayer.piece ≠ Piece.Empty ∧ Piece.Empty ∈ c2WState ∧
      (∀ k v, tableGet c2WPlayer.stateSpace k = some v → 0 ≤ v)) ∧
    ((¬ (1 : ℚ) < c2WPlayer.explorationFn c2WPlayer.initialExplorationRate c2WPlayer.iteration →
      ∃ moves probs t1 mv p2,
        getPotentialMoves c2WPlayer.piece c2WPlayer.stateSpace c2WState = some (moves, probs, t1) ∧
        makeMove c2WPlayer c2WState 1 0 = some (mv, p2) ∧
        (bestFold (moves.zip probs) 0 []).1 ∈ probs ∧
        (∀ q ∈ probs, q ≤ (bestFold (moves.zip probs) 0 []).1) ∧
        tableGet p2.stateSpace c2WState = some (probOf c2WPlayer.piece c2WPlayer.stateSpace c2WState +
          c2WPlayer.learningFn c2WPlayer.initialLearningRate c2WPlayer.iteration *
            ((bestFold (moves.zip probs) 0 []).1 - probOf c2WPlayer.piece c2WPlayer.stateSpace c2WState)) ∧
        (c2WPlayer.learningFn c2WPlayer.initialLearningRate c2WPlayer.iteration = 0 →
          tableGet p2.stateSpace c2WState = some (probOf c2WPlayer.piece c2WPlayer.stateSpace c2WState)) ∧
        (c2WPlayer.learningFn c2WPlayer.initialLearningRate c2WPlayer.iteration = 1 →
          tableGet p2.stateSpace c2WState = some ((bestFold (moves.zip probs) 0 []).1))) ∧
    ((1 : ℚ) < c2WPlayer.explorationFn c2WPlayer.initialExplorationRate c2WPlayer.iteration →
      ∃ mv p2, makeMove c2WPlayer c2WState 1 0 = some (mv, p2) ∧
        tableGet p2.stateSpace c2WState = tableGet c2WPlayer.stateSpace c2WState)) :=
  ⟨⟨by decide, by decide, by intro k v h; simp [tableGet] at h⟩,
   c2_td_update_law c2WPlayer c2WState 1 0 (by decide) (by decide)
     (by intro k v h; simp [tableGet] at h)⟩

/-- Witness for C5: the always-exploring fresh X player on the two-move
position, random draw 0 and choice index 0. -/
theorem c5_exploratory_pool_witness :
    (c5WPlayer.piece ≠ Piece.Empty ∧ Piece.Empty ∈ c2WState ∧
      (0 : ℚ) < c5WPlayer.explorationFn c5WPlayer.initialExplorationRate c5WPlayer.iteration ∧
      (∀ k v, tableGet c5WPlayer.stateSpace k = some v → 0 ≤ v)) ∧
    (∃ moves probs t1,
      getPotentialMoves c5WPlayer.piece c5WPlayer.stateSpace c2WState = some (moves, probs, t1) ∧
      maxFold probs 0 ∈ probs ∧
      (∀ q ∈ probs, q ≤ maxFold probs 0) ∧
      ((moves.zip probs).filterMap
          (fun mp => if mp.2 < maxFold probs 0 then some mp.1 else none) ≠ [] →
        makeMove c5WPlayer c2WState 0 0 = some
          (((moves.zip probs).filterMap
              (fun mp => if mp.2 < maxFold probs 0 then some mp.1 else none)).getD
            (0 % ((moves.zip probs).filterMap
              (fun mp => if mp.2 < maxFold probs 0 then some mp.1 else none)).length)
            (0, 0), { c5WPlayer with stateSpace := t1 })) ∧
      ((moves.zip probs).filterMap
          (fun mp => if mp.2 < maxFold probs 0 then some mp.1 else none) = [] →
        makeMove c5WPlayer c2WState 0 0 = some
          (moves.getD (0 % moves.length) (0, 0), { c5WPlayer with stateSpace := t1 }))) :=
  ⟨⟨by decide, by decide, by decide, by intro k v h; simp [tableGet] at h⟩,
   c5_exploratory_pool c5WPlayer c2WState 0 0 (by decide) (by decide) (by decide)
     (by intro k v h; simp [tableGet] at h)⟩

/-- Witness for C10: piece X, the empty table, the two-move position and
the empty board. -/
theorem c10_potential_moves_witness :
    (Piece.X ≠ Piece.Empty ∧ c2WState.length = 9) ∧
    ((∃ t1, getPotentialMoves Piece.X [] c2WState = some
        (((List.range 9).filter (fun i => cell c2WState i = Piece.Empty)).map
            (fun i => ((i : Nat) / 3, i % 3)),
         ((List.range 9).filter (fun i => cell c2WState i = Piece.Empty)).map
            (fun i => probOf Piece.X [] (c2WState.set i Piece.X)), t1)) ∧
      (∀ mv ∈ ((List.range 9).filter (fun i => cell c2WState i = Piece.Empty)).map
          (fun i => ((i : Nat) / 3, i % 3)), cell c2WState (3 * mv.1 + mv.2) = Piece.Empty) ∧
      (∀ row col : Nat, row < 3 → col < 3 →
        cell (getCompactState emptyBoard) (3 * row + col) = emptyBoard.squares row col)) :=
  ⟨⟨by decide, by decide⟩,
   c10_potential_moves Piece.X [] c2WState emptyBoard (by decide) (by decide)⟩

theorem tableGet_modify_pred (t : Table) (k : GState) (f : ℚ → ℚ) (v0 : ℚ)
    (P : ℚ → Prop) (hget : tableGet t k = some v0)
    (ht : ∀ k2 v, tableGet t k2 = some v → P v) (hf : P (f v0)) :
    ∀ k2 v, tableGet (tableModify t k f) k2 = some v → P v := by
  intro k2 v h
  by_cases hk : k = k2
  · subst hk
    rw [tableGet_modify_self t k f v0 hget] at h
    exact Option.some.inj h ▸ hf
  · rw [tableGet_modify_ne t k k2 f hk] at h
    exact ht k2 v h

theorem getPotentialMoves_pred (piece : Piece) (t : Table) (s : GState) (P : ℚ → Prop)
    (hd : ∀ k, P (findNewStateProb piece k))
    (moves : List (Nat × Nat)) (probs : List ℚ) (t2 : Table)
    (heq : getPotentialMoves piece t s = some (moves, probs, t2))
    (ht : ∀ k v, tableGet t k = some v → P v) :
    (∀ k v, tableGet t2 k = some v → P v) ∧ (∀ q ∈ probs, P q) := by
  unfold getPotentialMoves at heq
  exact potentialMovesAux_pred piece s P hd s 0 t moves probs t2 heq ht

theorem makeRandomMove_range (piece : Piece) (t : Table) (s : GState) (choiceIdx : Nat)
    (r : (Nat × Nat) × Table)
    (ht : ∀ k v, tableGet t k = some v → 0 ≤ v ∧ v ≤ 1)
    (hm : makeRandomMove piece t s choiceIdx = some r) :
    ∀ k v, tableGet r.2 k = some v → 0 ≤ v ∧ v ≤ 1 := by
  unfold makeRandomMove at hm
  split at hm
  · simp at hm
  · rename_i moves probs t1 hgp
    have ht1 := (getPotentialMoves_pred piece t s (fun v => 0 ≤ v ∧ v ≤ 1)
      (fun k => findNewStateProb_range piece k) moves probs t1 hgp ht).1
    dsimp only at hm
    split at hm
    · split at hm
      · simp at hm
      · have hr := Option.some.inj hm
        intro k v hv
        rw [← hr] at hv
        exact ht1 k v hv
    · have hr := Option.some.inj hm
      intro k v hv
      rw [← hr] at hv
      exact ht1 k v hv

theorem makeOptimalMove_range (piece : Piece) (lrate : ℚ) (t : Table) (s : GState)
    (choiceIdx : Nat) (r : (Nat × Nat) × Table)
    (hl0 : 0 ≤ lrate) (hl1 : lrate ≤ 1)
    (ht : ∀ k v, tableGet t k = some v → 0 ≤ v ∧ v ≤ 1)
    (hm : makeOptimalMove piece lrate t s choiceIdx = some r) :
    ∀ k v, tableGet r.2 k = some v → 0 ≤ v ∧ v ≤ 1 := by
  unfold makeOptimalMove at hm
  split at hm
  · simp at hm
  · rename_i moves probs t1 hgp
    have hpred := getPotentialMoves_pred piece t s (fun v => 0 ≤ v ∧ v ≤ 1)
      (fun k => findNewStateProb_range piece k) moves probs t1 hgp ht
    have ht1 := hpred.1
    have hprobs := hpred.2
    dsimp only at hm
    split at hm
    · simp at hm
    · rename_i oldProb hold
      have ht2 : ∀ k v, tableGet (if tableContains t1 s then t1
          else tableInsert t1 s (findNewStateProb piece s)) k = some v →
          0 ≤ v ∧ v ≤ 1 := by
        intro k v hv
        rcases tableGet_lazyInsert_cases t1 s k _ v hv with hv2 | hv2
        · rw [hv2]; exact findNewStateProb_range piece s
        · exact ht1 k v hv2
      have holdr := ht2 s oldProb hold
      have hmaxr : 0 ≤ (bestFold (moves.zip probs) 0 []).1 ∧
          (bestFold (moves.zip probs) 0 []).1 ≤ 1 := by
        rcases bestFold_max_mem (moves.zip probs) 0 [] with h0 | ⟨mp, hmp, hMe⟩
        · rw [h0]
          exact ⟨le_refl 0, by norm_num⟩
        · obtain ⟨m, q⟩ := mp
          have hq : q ∈ probs := (List.of_mem_zip hmp).2
          rw [hMe]
          exact hprobs q hq
      have hupd : 0 ≤ oldProb + lrate * ((bestFold (moves.zip probs) 0 []).1 - oldProb) ∧
          oldProb + lrate * ((bestFold (moves.zip probs) 0 []).1 - oldProb) ≤ 1 := by
        constructor
        · nlinarith [mul_nonneg (sub_nonneg.mpr hl1) holdr.1,
            mul_nonneg hl0 hmaxr.1]
        · nlinarith [mul_nonneg (sub_nonneg.mpr hl1) (sub_nonneg.mpr holdr.2),
            mul_nonneg hl0 (sub_nonneg.mpr hmaxr.2)]
      have hmain := tableGet_modify_pred
        (if tableContains t1 s then t1 else tableInsert t1 s (findNewStateProb piece s))
        s (fun prob => prob + lrate * ((bestFold (moves.zip probs) 0 []).1 - oldProb))
        oldProb (fun v => 0 ≤ v ∧ v ≤ 1) hold ht2 hupd
      split at hm
      · have hr := Option.some.inj hm
        intro k v hv
        rw [← hr] at hv
        exact hmain k v hv
      · split at hm
        · have hr := Option.some.inj hm
          intro k v hv
          rw [← hr] at hv
          exact hmain k v hv
        · simp at hm

theorem makeMove_fields (p : PlayerM) (s : GState) (rv : ℚ) (ci : Nat)
    (mv : Nat × Nat) (p2 : PlayerM) (hm : makeMove p s rv ci = some (mv, p2)) :
    p2.learningFn = p.learningFn ∧ p2.initialLearningRate = p.initialLearningRate ∧
    p2.iteration = p.iteration := by
  unfold makeMove at hm
  dsimp only at hm
  split at hm
  · split at hm
    · simp at hm
    · rename_i mv2 t2 hr
      have h2 : ({ p with stateSpace := t2 } : PlayerM) = p2 :=
        congrArg Prod.snd (Option.some.inj hm)
      rw [← h2]
      exact ⟨rfl, rfl, rfl⟩
  · split at hm
    · simp at hm
    · rename_i mv2 t2 hr
      have h2 : ({ p with stateSpace := t2 } : PlayerM) = p2 :=
        congrArg Prod.snd (Option.some.inj hm)
      rw [← h2]
      exact ⟨rfl, rfl, rfl⟩

theorem makeMove_range (p : PlayerM) (s : GState) (rv : ℚ) (ci : Nat)
    (mv : Nat × Nat) (p2 : PlayerM)
    (hl0 : 0 ≤ p.learningFn p.initialLearningRate p.iteration)
    (hl1 : p.learningFn p.initialLearningRate p.iteration ≤ 1)
    (ht : ∀ k v, tableGet p.stateSpace k = some v → 0 ≤ v ∧ v ≤ 1)
    (hm : makeMove p s rv ci = some (mv, p2)) :
    ∀ k v, tableGet p2.stateSpace k = some v → 0 ≤ v ∧ v ≤ 1 := by
  unfold makeMove at hm
  dsimp only at hm
  split at hm
  · split at hm
    · simp at hm
    · rename_i mv2 t2 hr
      have h2 : ({ p with stateSpace := t2 } : PlayerM) = p2 :=
        congrArg Prod.snd (Option.some.inj hm)
      rw [← h2]
      exact makeRandomMove_range p.piece p.stateSpace s ci (mv2, t2) ht hr
  · split at hm
    · simp at hm
    · rename_i mv2 t2 hr
      have h2 : ({ p with stateSpace := t2 } : PlayerM) = p2 :=
        congrArg Prod.snd (Option.some.inj hm)
      rw [← h2]
      exact makeOptimalMove_range p.piece
        (p.learningFn p.initialLearningRate p.iteration)
        p.stateSpace s ci (mv2, t2) hl0 hl1 ht hr

theorem runMakeMoves_range (inputs : List (GState × ℚ × Nat)) :
    ∀ p : PlayerM,
    0 ≤ p.learningFn p.initialLearningRate p.iteration →
    p.learningFn p.initialLearningRate p.iteration ≤ 1 →
    (∀ k v, tableGet p.stateSpace k = some v → 0 ≤ v ∧ v ≤ 1) →
    ∀ k v, tableGet (runMakeMoves p inputs).stateSpace k = some v →
      0 ≤ v ∧ v ≤ 1 := by
  induction inputs with
  | nil =>
      intro p _ _ ht
      simpa [runMakeMoves] using ht
  | cons inp rest ih =>
      intro p hl0 hl1 ht
      obtain ⟨s, rv, ci⟩ := inp
      rw [runMakeMoves]
      split
      · exact ht
      · rename_i mv1 p2 hm
        have ht2 := makeMove_range p s rv ci mv1 p2 hl0 hl1 ht hm
        obtain ⟨hf1, hf2, hf3⟩ := makeMove_fields p s rv ci mv1 p2 hm
        exact ih p2 (by rw [hf1, hf2, hf3]; exact hl0)
          (by rw [hf1, hf2, hf3]; exact hl1) ht2

/-- C4 (corrected): newly inserted defaults are always 0, 1/2 or 1, and
under the extra condition that the annealed learning rate lies in [0, 1]
(true for the shipped configuration but not enforced by `Player::new`),
every value stored after any sequence of `make_move` calls from a player
whose table already lies in [0, 1] -- in particular a fresh one -- remains
in [0, 1]. The unamended claim is refuted by the companion counterexample
with learning rate 2. -/
theorem c4_values_in_unit_interval (p : PlayerM) (inputs : List (GState × ℚ × Nat))
    (hl0 : 0 ≤ p.learningFn p.initialLearningRate p.iteration)
    (hl1 : p.learningFn p.initialLearningRate p.iteration ≤ 1)
    (ht : ∀ k v, tableGet p.stateSpace k = some v → 0 ≤ v ∧ v ≤ 1) :
    (∀ k2, findNewStateProb p.piece k2 = 0 ∨ findNewStateProb p.piece k2 = 1 / 2 ∨
      findNewStateProb p.piece k2 = 1) ∧
    ∀ k v, tableGet (runMakeMoves p inputs).stateSpace k = some v →
      0 ≤ v ∧ v ≤ 1 :=
  ⟨fun k2 => findNewStateProb_cases p.piece k2,
   runMakeMoves_range inputs p hl0 hl1 ht⟩

/-- Witness for C4: the never-exploring fresh X player with unit learning
rate, one call on the two-move position. -/
theorem c4_values_in_unit_interval_witness :
    ((0 : ℚ) ≤ c2WPlayer.learningFn c2WPlayer.initialLearningRate c2WPlayer.iteration ∧
     c2WPlayer.learningFn c2WPlayer.initialLearningRate c2WPlayer.iteration ≤ 1 ∧
     (∀ k v, tableGet c2WPlayer.stateSpace k = some v → 0 ≤ v ∧ v ≤ 1)) ∧
    ((∀ k2, findNewStateProb c2WPlayer.piece k2 = 0 ∨
        findNewStateProb c2WPlayer.piece k2 = 1 / 2 ∨
        findNewStateProb c2WPlayer.piece k2 = 1) ∧
     ∀ k v, tableGet (runMakeMoves c2WPlayer [(c2WState, 1, 0)]).stateSpace k = some v →
       0 ≤ v ∧ v ≤ 1) :=
  ⟨⟨by decide, by decide, by intro k v h; simp [tableGet] at h⟩,
   c4_values_in_unit_interval c2WPlayer [(c2WState, 1, 0)] (by decide) (by decide)
     (by intro k v h; simp [tableGet] at h)⟩

/-- C4 counterexample: the fresh X player with initial learning rate 2 --
accepted unchecked by `Player::new` -- stores the value 3/2 for `c4State`
after a single greedy `make_move`, because the winning successor evaluates
to 1 and the update overshoots: `1/2 + 2 * (1 - 1/2) = 3/2 > 1`. -/
theorem c4_value_escapes_interval :
    tableGet (runMakeMoves c4Player [(c4State, 1 / 2, 0)]).stateSpace c4State =
      some (3 / 2) ∧ ¬ ((3 : ℚ) / 2 ≤ 1) := by
  constructor
  · norm_num [runMakeMoves, makeMove, makeOptimalMove, makeRandomMove, getPotentialMoves,
      potentialMovesAux, getMoveProbability, findNewStateProb, checkWinner, checkWinnerRow,
      checkWinnerCol, checkWinnerDiag, checkFull, tableGet, tableInsert, tableContains,
      tableModify, bestFold, maxFold, cell, probOf, c4Player, c4State,
      learning_rate_function, exploration_rate_function, ratPowi,
      pieceEqSimp1, pieceEqSimp2, pieceEqSimp3, pieceEqSimp4, pieceEqSimp5,
      pieceEqSimp6, pieceEqSimp7, pieceEqSimp8, pieceEqSimp9]
  · norm_num

theorem decodeNatLE_encodeNatLE (w : Nat) :
    ∀ (v : Nat) (tail : List Nat), v < 256 ^ w →
    decodeNatLE w (encodeNatLE w v ++ tail) = some (v, tail) := by
  induction w with
  | zero =>
      intro v tail hv
      have hv0 : v = 0 := by simpa using hv
      subst hv0
      rfl
  | succ w ih =>
      intro v tail hv
      have hv2 : v / 256 < 256 ^ w := by
        rw [Nat.div_lt_iff_lt_mul (by norm_num)]
        calc v < 256 ^ (w + 1) := hv
        _ = 256 ^ w * 256 := by ring
      rw [encodeNatLE, List.cons_append, decodeNatLE, ih (v / 256) tail hv2]
      dsimp only
      rw [Nat.mod_add_div v 256]

theorem decodePiece_encode (p : Piece) (rest : List Nat) :
    decodePiece (pieceByte p :: rest) = some (p, rest) := by
  cases p <;> rfl

theorem decodePieces_encode (k : GState) :
    ∀ tail : List Nat, decodePieces k.length (k.map pieceByte ++ tail) = some (k, tail) := by
  induction k with
  | nil => intro tail; rfl
  | cons p ps ih =>
      intro tail
      rw [List.map_cons, List.cons_append, List.length_cons, decodePieces,
        decodePiece_encode p]
      dsimp only
      rw [ih tail]

theorem decodeF64_encode (v : Nat) (tail : List Nat) (hv : v < 2 ^ 64)
    (hn : isNanBits v = false) :
    decodeF64 (encodeNatLE 8 v ++ tail) = some (v, tail) := by
  unfold decodeF64
  rw [decodeNatLE_encodeNatLE 8 v tail (by norm_num at hv ⊢; exact hv)]
  dsimp only
  rw [hn, if_neg Bool.false_ne_true]

theorem decodeEntry_encode (e : GState × Nat) (tail : List Nat)
    (hk : e.1.length = 9) (hv : e.2 < 2 ^ 64) (hn : isNanBits e.2 = false) :
    decodeEntry (encodeEntry e ++ tail) = some (e, tail) := by
  unfold decodeEntry encodeEntry
  rw [List.append_assoc, ← hk, decodePieces_encode e.1]
  dsimp only
  rw [decodeF64_encode e.2 tail hv hn]

theorem decodeEntries_encode (es : TableB) :
    ∀ tail : List Nat,
    (∀ e ∈ es, e.1.length = 9 ∧ e.2 < 2 ^ 64 ∧ isNanBits e.2 = false) →
    decodeEntries es.length (encodeEntries es ++ tail) = some (es, tail) := by
  induction es with
  | nil => intro tail _; rfl
  | cons e rest ih =>
      intro tail hwf
      obtain ⟨hk, hv, hn⟩ := hwf e (List.mem_cons_self e rest)
      rw [List.length_cons, encodeEntries, List.append_assoc, decodeEntries,
        decodeEntry_encode e _ hk hv hn]
      dsimp only
      rw [ih tail (fun e2 he2 => hwf e2 (List.mem_cons_of_mem e he2))]

theorem insertSorted_perm (x : GState × Nat) :
    ∀ l : TableB, (insertSorted x l).Perm (x :: l) := by
  intro l
  induction l with
  | nil => exact List.Perm.refl _
  | cons y ys ih =>
      rw [insertSorted]
      by_cases h : keyLtB x.1 y.1 = true
      · rw [if_pos h]
      · rw [if_neg h]
        exact (ih.cons y).trans (List.Perm.swap x y ys)

theorem sortByKey_perm : ∀ l : TableB, (sortByKey l).Perm l := by
  intro l
  induction l with
  | nil => exact List.Perm.refl _
  | cons x xs ih =>
      rw [sortByKey]
      exact (insertSorted_perm x (sortByKey xs)).trans (ih.cons x)

theorem tableGetB_eq_some_iff (l : TableB) : (l.map Prod.fst).Nodup →
    ∀ (k : GState) (v : Nat), (tableGetB l k = some v ↔ (k, v) ∈ l) := by
  induction l with
  | nil => intro _ k v; simp [tableGetB]
  | cons e rest ih =>
      intro hnd k v
      obtain ⟨k0, v0⟩ := e
      simp only [List.map_cons, List.nodup_cons] at hnd
      rw [tableGetB]
      by_cases h : k0 = k
      · subst h
        rw [if_pos rfl]
        constructor
        · intro hh
          have hv : v0 = v := Option.some.inj hh
          subst hv
          exact List.mem_cons_self _ _
        · intro hh
          rcases List.mem_cons.mp hh with hh | hh
          · have hv : v = v0 := congrArg Prod.snd hh
            rw [hv]
          · exact absurd (List.mem_map_of_mem Prod.fst hh) (by simpa using hnd.1)
      · rw [if_neg h, ih hnd.2 k v]
        constructor
        · exact List.mem_cons_of_mem _
        · intro hh
          rcases List.mem_cons.mp hh with hh | hh
          · exact absurd (congrArg Prod.fst hh).symm h
          · exact hh

theorem tableGetB_perm (l1 l2 : TableB) (hp : l1.Perm l2)
    (h1 : (l1.map Prod.fst).Nodup) : ∀ k, tableGetB l1 k = tableGetB l2 k := by
  have h2 : (l2.map Prod.fst).Nodup := ((hp.map Prod.fst).nodup_iff).mp h1
  intro k
  cases hg1 : tableGetB l1 k with
  | some v =>
      have hm := (tableGetB_eq_some_iff l1 h1 k v).mp hg1
      exact ((tableGetB_eq_some_iff l2 h2 k v).mpr (hp.mem_iff.mp hm)).symm
  | none =>
      cases hg2 : tableGetB l2 k with
      | none => rfl
      | some v =>
          have hm := (tableGetB_eq_some_iff l2 h2 k v).mp hg2
          have h3 := (tableGetB_eq_some_iff l1 h1 k v).mpr (hp.mem_iff.mpr hm)
          rw [h3] at hg1
          exact Option.noConfusion hg1

theorem c8_round_trip_core (s : SaveStateB)
    (hk : ∀ e ∈ s.stateSpace, e.1.length = 9 ∧ e.2 < 2 ^ 64 ∧ isNanBits e.2 = false)
    (hlen : s.stateSpace.length < 2 ^ 32)
    (hlr : s.initialLearningRate < 2 ^ 64) (hlrn : isNanBits s.initialLearningRate = false)
    (her : s.initialExplorationRate < 2 ^ 64) (hern : isNanBits s.initialExplorationRate = false)
    (hit : s.iteration < 2 ^ 32) :
    deserializeSaveState (serializeSaveState s) =
      some { piece := s.piece, stateSpace := sortByKey s.stateSpace,
             initialLearningRate := s.initialLearningRate,
             initialExplorationRate := s.initialExplorationRate,
             iteration := s.iteration } := by
  have hperm := sortByKey_perm s.stateSpace
  have hslen : (sortByKey s.stateSpace).length = s.stateSpace.length := hperm.length_eq
  have hwf : ∀ e ∈ sortByKey s.stateSpace,
      e.1.length = 9 ∧ e.2 < 2 ^ 64 ∧ isNanBits e.2 = false :=
    fun e he => hk e (hperm.mem_iff.mp he)
  have h4len : s.stateSpace.length < 256 ^ 4 := by
    have h := hlen
    norm_num at h ⊢
    exact h
  have h4it : s.iteration < 256 ^ 4 := by
    have h := hit
    norm_num at h ⊢
    exact h
  unfold serializeSaveState deserializeSaveState
  simp only [List.append_assoc]
  rw [decodePiece_encode]
  dsimp only
  rw [decodeNatLE_encodeNatLE 4 s.stateSpace.length _ h4len]
  dsimp only
  rw [← hslen, decodeEntries_encode (sortByKey s.stateSpace) _ hwf]
  dsimp only
  rw [decodeF64_encode _ _ hlr hlrn]
  dsimp only
  rw [decodeF64_encode _ _ her hern]
  dsimp only
  rw [← List.append_nil (encodeNatLE 4 s.iteration),
    decodeNatLE_encodeNatLE 4 s.iteration [] h4it]

/-- C8: persistence round-trip. Saving a player writes the borsh bytes of
its `SaveState` (piece discriminant, `u32` entry count, entries sorted by
key as nine key bytes plus eight little-endian `f64` bit-pattern bytes
each, the two rates, the `u32` iteration); loading those bytes with any
pair of annealing functions succeeds and returns a player whose piece,
value-table contents, rates and iteration counter equal the saved ones,
and which carries the supplied annealing functions. Hypotheses are the
representation invariants of the saved struct: length-9 keys, distinct
keys, non-NaN 64-bit values and rates, and in-range `u32` counters. -/
theorem c8_persistence_round_trip (p : PlayerB) (lf ef : ℚ → Nat → ℚ)
    (hk : ∀ e ∈ p.saveState.stateSpace,
      e.1.length = 9 ∧ e.2 < 2 ^ 64 ∧ isNanBits e.2 = false)
    (hnd : (p.saveState.stateSpace.map Prod.fst).Nodup)
    (hlen : p.saveState.stateSpace.length < 2 ^ 32)
    (hlr : p.saveState.initialLearningRate < 2 ^ 64)
    (hlrn : isNanBits p.saveState.initialLearningRate = false)
    (her : p.saveState.initialExplorationRate < 2 ^ 64)
    (hern : isNanBits p.saveState.initialExplorationRate = false)
    (hit : p.saveState.iteration < 2 ^ 32) :
    ∃ p2, newFromFile (savePlayerState p) lf ef = some p2 ∧
      p2.saveState.piece = p.saveState.piece ∧
      (∀ k, tableGetB p2.saveState.stateSpace k = tableGetB p.saveState.stateSpace k) ∧
      p2.saveState.initialLearningRate = p.saveState.initialLearningRate ∧
      p2.saveState.initialExplorationRate = p.saveState.initialExplorationRate ∧
      p2.saveState.iteration = p.saveState.iteration ∧
      p2.learningFn = lf ∧ p2.explorationFn = ef := by
  refine ⟨⟨⟨p.saveState.piece, sortByKey p.saveState.stateSpace,
      p.saveState.initialLearningRate, p.saveState.initialExplorationRate,
      p.saveState.iteration⟩, lf, ef⟩, ?_, rfl, ?_, rfl, rfl, rfl, rfl, rfl⟩
  · unfold newFromFile savePlayerState
    rw [c8_round_trip_core p.saveState hk hlen hlr hlrn her hern hit]
  · intro k
    exact tableGetB_perm (sortByKey p.saveState.stateSpace) p.saveState.stateSpace
      (sortByKey_perm p.saveState.stateSpace)
      ((((sortByKey_perm p.saveState.stateSpace).map Prod.fst).nodup_iff).mpr hnd) k

/-- Witness for C8: the concrete saved O player with a two-entry table in
descending key order, rates 0.75 and 0.2 as IEEE-754 bit patterns, and
iteration 12. -/
theorem c8_persistence_round_trip_witness :
    (∀ e ∈ c8WPlayer.saveState.stateSpace,
      e.1.length = 9 ∧ e.2 < 2 ^ 64 ∧ isNanBits e.2 = false) ∧
    (c8WPlayer.saveState.stateSpace.map Prod.fst).Nodup ∧
    c8WPlayer.saveState.stateSpace.length < 2 ^ 32 ∧
    c8WPlayer.saveState.initialLearningRate < 2 ^ 64 ∧
    isNanBits c8WPlayer.saveState.initialLearningRate = false ∧
    c8WPlayer.saveState.initialExplorationRate < 2 ^ 64 ∧
    isNanBits c8WPlayer.saveState.initialExplorationRate = false ∧
    c8WPlayer.saveState.iteration < 2 ^ 32 ∧
    (∃ p2, newFromFile (savePlayerState c8WPlayer)
        learning_rate_function exploration_rate_function = some p2 ∧
      p2.saveState.piece = c8WPlayer.saveState.piece ∧
      (∀ k, tableGetB p2.saveState.stateSpace k =
        tableGetB c8WPlayer.saveState.stateSpace k) ∧
      p2.saveState.initialLearningRate = c8WPlayer.saveState.initialLearningRate ∧
      p2.saveState.initialExplorationRate = c8WPlayer.saveState.initialExplorationRate ∧
      p2.saveState.iteration = c8WPlayer.saveState.iteration ∧
      p2.learningFn = learning_rate_function ∧
      p2.explorationFn = exploration_rate_function) :=
  ⟨by decide, by decide, by decide, by decide, by decide, by decide, by decide, by decide,
   c8_persistence_round_trip c8WPlayer learning_rate_function exploration_rate_function
     (by decide) (by decide) (by decide) (by decide) (by decide) (by decide) (by decide)
     (by decide)⟩

end Tictacrs
